import Mathlib

/-!
Verification of the go-mpq MPQ archive library

Shallow embedding of the core of the `suprsokr/go-mpq` repository
(crypt.go, checksum.go, compress.go, format.go, mpq.go, patch_chain.go)
into Lean 4, together with theorems settling the frozen claims about the
natural-language specification of the library.

Machine integers (Go `uint32`, `uint16`, `uint64`) are modelled as `Nat`
with explicit reduction `% 2^32` (resp. `2^16`, no reduction needed for
64-bit file positions which never overflow here) exactly where the Go
code performs wrapping arithmetic.  Byte slices are `List Nat` (each
element a byte value).  Fallible Go functions returning `error` are
modelled with `Except String` carrying the `fmt.Errorf` message text.
The zlib / bzip2 / PKWARE compression backends are external collaborators
of the library (Go standard library); they are passed in as an explicit
`Backends` record of function parameters.
-/

namespace MPQ

/-- The Go `uint32` modulus, 2^32. -/
def M32 : Nat := 4294967296

/-- Bitwise complement on `uint32` (`^x` in Go). -/
def not32 (x : Nat) : Nat := 4294967295 ^^^ (x % M32)

/-- Little-endian decode of 4 bytes of `data` starting at `off`
(out-of-range bytes read as 0, which the Go code never relies on:
every use is bounds-checked first). -/
def le32At (data : List Nat) (off : Nat) : Nat :=
  data.getD off 0 |||
  (data.getD (off+1) 0 <<< 8) |||
  (data.getD (off+2) 0 <<< 16) |||
  (data.getD (off+3) 0 <<< 24)

/-- Little-endian encode of a `uint32` as 4 bytes (as in the Go code's
manual `byte(x)`, `byte(x >> 8)`, ... stores). -/
def le32Bytes (x : Nat) : List Nat :=
  [x % 256, (x >>> 8) % 256, (x >>> 16) % 256, (x >>> 24) % 256]

/-- Little-endian encode of a `uint16` as 2 bytes. -/
def le16Bytes (x : Nat) : List Nat :=
  [x % 256, (x >>> 8) % 256]

/-- Little-endian encode of a `uint64` as 8 bytes. -/
def le64Bytes (x : Nat) : List Nat :=
  [x % 256, (x >>> 8) % 256, (x >>> 16) % 256, (x >>> 24) % 256,
   (x >>> 32) % 256, (x >>> 40) % 256, (x >>> 48) % 256, (x >>> 56) % 256]

/-- Slice `data[pos : pos+len]` if fully in range, else `none` (models a seek
followed by `io.ReadFull`, which errors when the file is too short). -/
def readSlice (data : List Nat) (pos len : Nat) : Option (List Nat) :=
  if pos + len ≤ data.length then some ((data.drop pos).take len) else none

/-- One hexadecimal digit, upper case. -/
def hexDigit (n : Nat) : Char :=
  if n < 10 then Char.ofNat (48 + n) else Char.ofNat (55 + n)

/-- Render a `uint32` as 8 upper-case hex digits, as Go's `%08X` verb does
for the values appearing in this library's error messages. -/
def hex32 (x : Nat) : String :=
  String.mk [hexDigit ((x >>> 28) % 16), hexDigit ((x >>> 24) % 16),
             hexDigit ((x >>> 20) % 16), hexDigit ((x >>> 16) % 16),
             hexDigit ((x >>> 12) % 16), hexDigit ((x >>> 8) % 16),
             hexDigit ((x >>> 4) % 16), hexDigit (x % 16)]

/-! ## Hash/Crypt engine (crypt.go) -/

/-- One step of the cryptTable seed recurrence:
`seed = (seed*125 + 3) % 0x2AAAAB` (crypt.go `init`). -/
def seedStep (s : Nat) : Nat := (s * 125 + 3) % 0x2AAAAB

/-- Iterate `seedStep` `n` times from `s`.  The inner `match` forces the
accumulated seed to a numeral before recursing (both branches recurse on
exactly `seedStep s`, see `seedIter_succ`), which keeps kernel reduction
of deep iterations at constant stack depth. -/
def seedIter : Nat → Nat → Nat
  | s, 0 => s
  | s, n + 1 =>
      match seedStep s with
      | 0 => seedIter 0 n
      | t + 1 => seedIter (t + 1) n

/-- The seed after `n` steps, starting from `0x00100001` (crypt.go `init`). -/
def seedAt (n : Nat) : Nat := seedIter 0x00100001 n

/-- The `cryptTable[idx]` for `idx < 0x500`, exactly as filled by crypt.go's
`init`: the loop visits `(index1, pass)` in index1-major order, advancing
the seed twice per entry, and stores at `index1 + 0x100*pass`; hence the
entry at `idx` is generated at step `5*(idx % 0x100) + idx / 0x100` of
that enumeration. -/
def cryptTable (idx : Nat) : Nat :=
  let k := 5 * (idx % 0x100) + idx / 0x100
  let temp1 := (seedAt (2*k + 1) &&& 0xFFFF) <<< 0x10
  let temp2 := seedAt (2*k + 2) &&& 0xFFFF
  temp1 ||| temp2

/-- Loop of `hashString` (crypt.go): state `(seed1, seed2)`, processing the
bytes of the string.  All additions are `uint32` additions. -/
def hashLoop : List Nat → Nat → Nat → Nat → Nat
  | [], _, seed1, _ => seed1
  | c :: rest, hashType, seed1, seed2 =>
      let ch := if 97 ≤ c ∧ c ≤ 122 then c - 0x20 else c
      let ch := if ch = 47 then 92 else ch
      let seed1' := cryptTable (hashType * 0x100 + ch) ^^^ ((seed1 + seed2) % M32)
      let seed2' := (ch + seed1' + seed2 + ((seed2 <<< 5) % M32) + 3) % M32
      hashLoop rest hashType seed1' seed2'

/-- The bytes of a Go string.  All strings hashed in this development are
ASCII, where Go's per-byte iteration agrees with the per-`Char` view. -/
def strBytes (s : String) : List Nat := s.data.map Char.toNat

/-- The `hashString` (crypt.go): the MPQ string hash with its four hash types
(0 = table offset, 1 = name A, 2 = name B, 3 = file key). -/
def hashString (s : String) (hashType : Nat) : Nat :=
  hashLoop (strBytes s) hashType 0x7FED7FED 0xEEEEEEEE

/-- Loop of `encryptBlock` (crypt.go), state `(key, seed)` made explicit. -/
def encryptLoop : List Nat → Nat → Nat → List Nat
  | [], _, _ => []
  | plain :: rest, key, seed =>
      let seed1 := (seed + cryptTable (0x400 + key % 256)) % M32
      let encrypted := plain ^^^ ((key + seed1) % M32)
      let key' := ((((not32 key <<< 0x15) % M32) + 0x11111111) % M32) ||| ((key % M32) >>> 0x0B)
      let seed2 := (plain + seed1 + ((seed1 <<< 5) % M32) + 3) % M32
      encrypted :: encryptLoop rest key' seed2

/-- The `encryptBlock` (crypt.go): in-place block encryption, modelled as a
function from the plain `uint32` words to the encrypted words. -/
def encryptBlock (data : List Nat) (key : Nat) : List Nat :=
  encryptLoop data key 0xEEEEEEEE

/-- Loop of `decryptBlock` (crypt.go), state `(key, seed)` made explicit. -/
def decryptLoop : List Nat → Nat → Nat → List Nat
  | [], _, _ => []
  | encrypted :: rest, key, seed =>
      let seed1 := (seed + cryptTable (0x400 + key % 256)) % M32
      let plain := encrypted ^^^ ((key + seed1) % M32)
      let key' := ((((not32 key <<< 0x15) % M32) + 0x11111111) % M32) ||| ((key % M32) >>> 0x0B)
      let seed2 := (plain + seed1 + ((seed1 <<< 5) % M32) + 3) % M32
      plain :: decryptLoop rest key' seed2

/-- The `decryptBlock` (crypt.go). -/
def decryptBlock (data : List Nat) (key : Nat) : List Nat :=
  decryptLoop data key 0xEEEEEEEE

/-- Zero-pad a byte list to a multiple of 4 (crypt.go `decryptBytes`). -/
def pad4 (data : List Nat) : List Nat :=
  data ++ List.replicate ((4 - data.length % 4) % 4) 0

/-- Group a (4-divisible) byte list into little-endian `uint32` words. -/
def bytesToWords : List Nat → List Nat
  | b0 :: b1 :: b2 :: b3 :: rest =>
      (b0 ||| (b1 <<< 8) ||| (b2 <<< 16) ||| (b3 <<< 24)) :: bytesToWords rest
  | _ => []

/-- Serialize `uint32` words back to little-endian bytes. -/
def wordsToBytes (ws : List Nat) : List Nat := ws.flatMap le32Bytes

/-- The `decryptBytes` (crypt.go): pad to a 4-byte boundary, decrypt as words,
re-emit bytes, truncate to the original length. -/
def decryptBytes (data : List Nat) (key : Nat) : List Nat :=
  (wordsToBytes (decryptBlock (bytesToWords (pad4 data)) key)).take data.length

/-- Index of the last `\` or `/` in a byte list, or `none`
(crypt.go `lastIndexOfSlash`, which scans from the right). -/
def lastIndexOfSlash (s : List Nat) : Option Nat :=
  match s.reverse.findIdx? (fun c => c == 92 || c == 47) with
  | none => none
  | some i => some (s.length - 1 - i)

/-- The basename part of a path's bytes (crypt.go `getFileKey`:
`filename[idx+1:]` after `lastIndexOfSlash`). -/
def plainName (s : List Nat) : List Nat :=
  match lastIndexOfSlash s with
  | none => s
  | some i => s.drop (i + 1)

/-- The MPQ string hash over raw bytes (the loop of `hashString` with the
standard initial seeds). -/
def hashBytes (s : List Nat) (hashType : Nat) : Nat :=
  hashLoop s hashType 0x7FED7FED 0xEEEEEEEE

/-- Block-table entry flags (format.go). -/
def fileImplode      : Nat := 0x00000100
def fileCompress     : Nat := 0x00000200
def fileEncrypted    : Nat := 0x00010000
def fileFixKey       : Nat := 0x00020000
def filePatchFile    : Nat := 0x00100000
def fileSingleUnit   : Nat := 0x01000000
def fileDeleteMarker : Nat := 0x02000000
def fileSectorCRC    : Nat := 0x04000000
def fileExists       : Nat := 0x80000000

/-- Hash-table sentinels and other format constants (format.go). -/
def hashTableEmpty   : Nat := 0xFFFFFFFF
def hashTableDeleted : Nat := 0xFFFFFFFE
def mpqMagic         : Nat := 0x1A51504D
def headerSizeV1     : Nat := 0x20
def headerSizeV2     : Nat := 0x2C
def defaultSectorSizeShift : Nat := 12
def defaultSectorSize : Nat := 4096

/-- The `getFileKey` (crypt.go): per-file encryption key from the basename,
optionally adjusted by block offset and file size under `fileFixKey`. -/
def getFileKey (filename : String) (blockOffset fileSize flags : Nat) : Nat :=
  let key := hashBytes (plainName (strBytes filename)) 3
  if flags &&& fileFixKey ≠ 0 then
    ((key + blockOffset % M32) % M32) ^^^ (fileSize % M32)
  else key

/-! ## Checksums (checksum.go, crc32 table source file) -/

/-- Loop of `adler32` (checksum.go), state `(a, b)`. -/
def adlerLoop : List Nat → Nat → Nat → Nat × Nat
  | [], a, b => (a, b)
  | v :: rest, a, b =>
      let a' := (a + v) % 65521
      let b' := (b + a') % 65521
      adlerLoop rest a' b'

/-- The `adler32` (checksum.go): Adler-32 with modulus 65521. -/
def adler32 (data : List Nat) : Nat :=
  let p := adlerLoop data 1 0
  (p.2 <<< 16) ||| p.1

/-- Eight halving rounds of the CRC-32 table construction. -/
def crc32Round (crc : Nat) : Nat :=
  if crc % 2 = 1 then (crc >>> 1) ^^^ 0xEDB88320 else crc >>> 1

/-- The `crc32Table[i]` (crc32 source file): 8 rounds over the byte value. -/
def crc32TableAt (i : Nat) : Nat :=
  crc32Round (crc32Round (crc32Round (crc32Round
    (crc32Round (crc32Round (crc32Round (crc32Round i)))))))

/-- Loop of `crc32`. -/
def crc32Loop : List Nat → Nat → Nat
  | [], crc => crc
  | v :: rest, crc =>
      crc32Loop rest (crc32TableAt ((crc ^^^ v) % 256) ^^^ (crc >>> 8))

/-- The `crc32` (crc32 source file): reversed-polynomial `0xEDB88320` CRC-32,
initial `0xFFFFFFFF`, final complement. -/
def crc32 (data : List Nat) : Nat :=
  not32 (crc32Loop data 0xFFFFFFFF)

/-! ## Data model (format.go, mpq.go) -/

/-- The `hashTableEntry` (format.go), fields as `Nat` (u32/u16 values). -/
structure HashEntry where
  HashA : Nat
  HashB : Nat
  Locale : Nat
  Platform : Nat
  BlockIndex : Nat
deriving DecidableEq, Repr

instance : Inhabited HashEntry := ⟨⟨0, 0, 0, 0, 0⟩⟩

/-- The `blockTableEntryEx` (format.go): block-table entry plus the 16-bit
high half of the file position from the hi-block table. -/
structure BlockEntry where
  FilePos : Nat
  CompressedSize : Nat
  FileSize : Nat
  Flags : Nat
  FilePosHi : Nat
deriving DecidableEq, Repr

instance : Inhabited BlockEntry := ⟨⟨0, 0, 0, 0, 0⟩⟩

/-- The `getFilePos64` (format.go). -/
def BlockEntry.getFilePos64 (b : BlockEntry) : Nat :=
  b.FilePos ||| (b.FilePosHi <<< 32)

/-- The `archiveHeader` (format.go): base V1 fields plus V2 extension, plus
the `ArchiveOffset` at which the header was found in the file (set by the
header scan, see `findArchiveHeader`). -/
structure ArchiveHeader where
  Magic : Nat
  HeaderSize : Nat
  ArchiveSize : Nat
  FormatVersion : Nat
  SectorSizeShift : Nat
  HashTableOffset : Nat
  BlockTableOffset : Nat
  HashTableSize : Nat
  BlockTableSize : Nat
  HiBlockTableOffset64 : Nat
  HashTableOffsetHi : Nat
  BlockTableOffsetHi : Nat
  ArchiveOffset : Nat
deriving DecidableEq, Repr

instance : Inhabited ArchiveHeader := ⟨⟨0,0,0,0,0,0,0,0,0,0,0,0,0⟩⟩

/-- The `getHashTableOffset64` (format.go). -/
def ArchiveHeader.getHashTableOffset64 (h : ArchiveHeader) : Nat :=
  if 1 ≤ h.FormatVersion then h.HashTableOffset ||| (h.HashTableOffsetHi <<< 32)
  else h.HashTableOffset

/-- The `getBlockTableOffset64` (format.go). -/
def ArchiveHeader.getBlockTableOffset64 (h : ArchiveHeader) : Nat :=
  if 1 ≤ h.FormatVersion then h.BlockTableOffset ||| (h.BlockTableOffsetHi <<< 32)
  else h.BlockTableOffset

/-- The `pendingFile` (mpq.go): a queued file; `data` is the source bytes
already read from disk (path I/O is external to the core). -/
structure PendingFile where
  mpqPath : String
  data : List Nat
  generateCRC : Bool
  isPatchFile : Bool
  isDeleteMarker : Bool
deriving DecidableEq, Repr

instance : Inhabited PendingFile := ⟨⟨"", [], false, false, false⟩⟩

/-- The `Archive` (mpq.go).  `fileBytes` models the contents of the backing
file `a.file` for read/modify mode; the temp-file path bookkeeping is
external I/O glue and not represented. -/
structure Archive where
  mode : String
  header : ArchiveHeader
  hashTable : List HashEntry
  blockTable : List BlockEntry
  pendingFiles : List PendingFile
  sectorSize : Nat
  formatVersion : Nat
  fileBytes : List Nat
deriving DecidableEq, Repr

instance : Inhabited Archive :=
  ⟨⟨"", default, [], [], [], 0, 0, []⟩⟩

/-- Go `strings.ReplaceAll(mpqPath, "/", "\\")`, the path normalization used
throughout mpq.go. -/
def replaceSlash (s : String) : String :=
  String.mk (s.data.map (fun c => if c = '/' then '\\' else c))

/-- The `nextPowerOf2` (mpq.go): bit-smearing next power of two on `uint32`.
ORs and right-shifts of values below `2^32` stay below `2^32`; the final
increment is the only wrapping operation. -/
def nextPowerOf2 (n : Nat) : Nat :=
  if n = 0 then 1
  else
    let x0 := (n - 1) % M32
    let x1 := x0 ||| (x0 >>> 1)
    let x2 := x1 ||| (x1 >>> 2)
    let x3 := x2 ||| (x2 >>> 4)
    let x4 := x3 ||| (x3 >>> 8)
    let x5 := x4 ||| (x4 >>> 16)
    (x5 + 1) % M32

/-- The hash-table size chosen by `CreateWithVersion` (mpq.go):
`nextPowerOf2(uint32(float64(maxFiles) * 1.5))`, clamped below by 16.
For `maxFiles ≤ 2^30` the float64 product `maxFiles * 1.5` is exact and
the Go float→uint32 conversion truncates toward zero, so the argument is
exactly `3 * maxFiles / 2` in integer (floor) division. -/
def hashTableSizeFor (maxFiles : Nat) : Nat :=
  let h := nextPowerOf2 (3 * maxFiles / 2)
  if h < 16 then 16 else h

/-- Loop of `findFile` (mpq.go): linear probe from `start`, `rem` probes
remaining out of a full pass of `size`, current probe number `i`.
Out-of-range hash-table reads (which would panic in Go and never happen
for well-formed archives, where `len(hashTable) = HashTableSize`) yield
an empty sentinel. -/
def findFileLoop (ht : List HashEntry) (bt : List BlockEntry)
    (size hashA hashB start : Nat) : Nat → Nat → Option BlockEntry
  | _, 0 => none
  | i, rem + 1 =>
      let idx := (start + i) % size
      let e := ht.getD idx ⟨0, 0, 0, 0, hashTableEmpty⟩
      if e.BlockIndex = hashTableEmpty then none
      else if e.BlockIndex = hashTableDeleted then
        findFileLoop ht bt size hashA hashB start (i + 1) rem
      else if e.HashA = hashA ∧ e.HashB = hashB then
        if e.BlockIndex < bt.length then
          let b := bt.getD e.BlockIndex default
          if b.Flags &&& fileExists ≠ 0 then some b
          else findFileLoop ht bt size hashA hashB start (i + 1) rem
        else findFileLoop ht bt size hashA hashB start (i + 1) rem
      else findFileLoop ht bt size hashA hashB start (i + 1) rem

/-- The `findFile` (mpq.go): hash-table lookup, returning the block entry, or
`none` for the `"file not found"` error. -/
def findFile (a : Archive) (mpqPath : String) : Option BlockEntry :=
  let p := replaceSlash mpqPath
  let hashA := hashString p 1
  let hashB := hashString p 2
  let start := hashString p 0 % a.header.HashTableSize
  findFileLoop a.hashTable a.blockTable a.header.HashTableSize hashA hashB
    start 0 a.header.HashTableSize

/-- ASCII upper-casing of a character, the ASCII fragment of Go's
`strings.EqualFold` / `strings.ToUpper` (all paths in this development
are ASCII). -/
def asciiUpper (c : Char) : Char :=
  if 'a' ≤ c ∧ c ≤ 'z' then Char.ofNat (c.toNat - 32) else c

/-- Case-insensitive string equality (`strings.EqualFold`, ASCII part). -/
def eqFold (a b : String) : Bool :=
  a.data.map asciiUpper == b.data.map asciiUpper

/-- The `HasFile` (mpq.go): in write mode scan the pending queue with
`EqualFold`; otherwise look up the hash table and reject delete markers. -/
def Archive.HasFile (a : Archive) (mpqPath : String) : Bool :=
  if a.mode = "w" then
    let p := replaceSlash mpqPath
    match a.pendingFiles.find? (fun f => eqFold f.mpqPath p) with
    | some f => !f.isDeleteMarker
    | none => false
  else
    match findFile a mpqPath with
    | none => false
    | some b => b.Flags &&& fileDeleteMarker == 0

/-- The `IsDeleteMarker` (mpq.go): only answers in read mode. -/
def Archive.IsDeleteMarker (a : Archive) (mpqPath : String) : Bool :=
  if a.mode ≠ "r" then false
  else
    match findFile a mpqPath with
    | none => false
    | some b => b.Flags &&& fileDeleteMarker != 0

/-- The `IsPatchFile` (mpq.go): only answers in read mode. -/
def Archive.IsPatchFile (a : Archive) (mpqPath : String) : Bool :=
  if a.mode ≠ "r" then false
  else
    match findFile a mpqPath with
    | none => false
    | some b => b.Flags &&& filePatchFile != 0

/-! ## Compression codec (compress.go)

The zlib / bzip2 / PKWARE-DCL byte-stream transforms are Go standard
library collaborators (spec §1, §6: external backends behind a narrow
interface); they enter the model as explicit function parameters. -/

/-- The compressor/decompressor backends consumed by compress.go:
`zlibC` is the zlib writer (BestCompression), the `*D` functions are
`decompressZlib` / `decompressBzip2` / `decompressPKWare`. -/
structure Backends where
  zlibC : List Nat → List Nat
  zlibD : List Nat → Nat → Except String (List Nat)
  bzip2D : List Nat → Nat → Except String (List Nat)
  pkwareD : List Nat → Nat → Except String (List Nat)

/-- Prefix an error message, as `fmt.Errorf("...: %w", err)` does. -/
def wrapErr (pre : String) : Except String (List Nat) → Except String (List Nat)
  | .error e => .error (pre ++ e)
  | .ok v => .ok v

/-- The `compressData` (compress.go): a `0x02` (zlib) method byte followed by
the zlib-compressed stream. -/
def compressData (B : Backends) (data : List Nat) : List Nat :=
  0x02 :: B.zlibC data

/-- Render a byte as two upper-case hex digits (Go's `%02X`). -/
def hex2 (x : Nat) : String :=
  String.mk [hexDigit ((x >>> 4) % 16), hexDigit (x % 16)]

/-- The `decompressData` (compress.go): dispatch on the 1-byte compression
mask, with single-method fast paths and the multi-compression branch. -/
def decompressData (B : Backends) (data : List Nat) (uncompressedSize : Nat) :
    Except String (List Nat) :=
  match data with
  | [] => .error "empty compressed data"
  | t :: rest =>
      if t = 0x02 then B.zlibD rest uncompressedSize
      else if t = 0x08 then B.pkwareD rest uncompressedSize
      else if t = 0x10 then B.bzip2D rest uncompressedSize
      else if t = 0x12 then .error "LZMA compression not supported"
      else if t = 0x01 then .error "Huffman-only compression not supported"
      else if t = 0x40 then .error "ADPCM mono compression not supported"
      else if t = 0x80 then .error "ADPCM stereo compression not supported"
      else
        let primary : Except String (List Nat) :=
          if t &&& 0x10 ≠ 0 then wrapErr "multi bzip2: " (B.bzip2D rest uncompressedSize)
          else if t &&& 0x02 ≠ 0 then wrapErr "multi zlib: " (B.zlibD rest uncompressedSize)
          else if t &&& 0x08 ≠ 0 then wrapErr "multi pkware: " (B.pkwareD rest uncompressedSize)
          else .ok rest
        match primary with
        | .error e => .error e
        | .ok result =>
            if t &&& 0x01 ≠ 0 ∧ t &&& (0x40 ||| 0x80) = 0 then
              .error "Huffman compression without ADPCM not supported"
            else if t &&& 0x40 ≠ 0 then .error "ADPCM mono compression not supported"
            else if t &&& 0x80 ≠ 0 then .error "ADPCM stereo compression not supported"
            else if result.length = 0 then
              .error ("unsupported compression type: 0x" ++ hex2 t)
            else .ok result

/-! ## File read paths (mpq.go) -/

/-- The sector offset table as read little-endian from the head of the
stored buffer (`count` entries). -/
def readOffsetTable (data : List Nat) (count : Nat) : List Nat :=
  (List.range count).map (fun i => le32At data (i * 4))

/-- The CRC-mismatch message of mpq.go
(`"sector CRC mismatch: expected 0x%08X got 0x%08X"`). -/
def crcMismatchMsg (expected actual : Nat) : String :=
  "sector CRC mismatch: expected 0x" ++ hex32 expected ++ " got 0x" ++ hex32 actual

/-- Wrapping `uint32` subtraction. -/
def sub32 (a b : Nat) : Nat := (a % M32 + M32 - b % M32) % M32

/-- Per-sector loop of `decompressSectors` (mpq.go): `i` is the sector
index, the second argument the number of sectors still to process. -/
def sectorLoop (B : Backends) (data offs : List Nat)
    (sectorSize fileSize numSectors : Nat) : Nat → Nat → Except String (List Nat)
  | _, 0 => .ok []
  | i, rem + 1 =>
      let sectorStart := offs.getD i 0
      let sectorEnd := offs.getD (i + 1) 0
      if sectorStart > data.length ∨ sectorEnd > data.length ∨ sectorEnd < sectorStart then
        .error ("invalid sector offsets: " ++ toString sectorStart ++ "-" ++
          toString sectorEnd ++ " (data len " ++ toString data.length ++ ")")
      else
        let sectorData := (data.drop sectorStart).take (sectorEnd - sectorStart)
        let expectedSize := if i = numSectors - 1 then fileSize - i * sectorSize else sectorSize
        let step : Except String (List Nat) :=
          if sectorData.length < expectedSize then
            wrapErr ("decompress sector " ++ toString i ++ ": ")
              (decompressData B sectorData expectedSize)
          else .ok sectorData
        match step with
        | .error e => .error e
        | .ok out =>
            match sectorLoop B data offs sectorSize fileSize numSectors (i + 1) rem with
            | .error e => .error e
            | .ok rest => .ok (out ++ rest)

/-- The `decompressSectors` (mpq.go): unencrypted sector-based compressed
file read, with the offset-table bounds checks. -/
def decompressSectors (B : Backends) (data : List Nat) (block : BlockEntry)
    (sectorSize : Nat) : Except String (List Nat) :=
  let numSectors := (block.FileSize + sectorSize - 1) / sectorSize
  let offsetTableSize := (numSectors + 1) * 4
  if data.length < offsetTableSize then .error "data too small for sector offset table"
  else
    let offs := readOffsetTable data (numSectors + 1)
    sectorLoop B data offs sectorSize block.FileSize numSectors 0 numSectors

/-- The `decryptAndDecompressSingleUnit` (mpq.go). -/
def decryptAndDecompressSingleUnit (B : Backends) (data : List Nat)
    (block : BlockEntry) (key : Nat) : Except String (List Nat) :=
  let d := decryptBytes data key
  if block.Flags &&& fileCompress ≠ 0 ∧ block.CompressedSize < block.FileSize then
    decompressData B d block.FileSize
  else if block.Flags &&& fileSectorCRC ≠ 0 then
    if d.length < 4 then .error "missing sector CRC for single unit file"
    else
      let payload := d.take (d.length - 4)
      let crcExpected := le32At d (d.length - 4)
      let crcActual := adler32 payload
      if crcActual ≠ crcExpected then .error (crcMismatchMsg crcExpected crcActual)
      else .ok payload
  else .ok d

/-- Per-sector loop of `decryptAndDecompressSectors` (mpq.go). -/
def encSectorLoop (B : Backends) (data offs crcs : List Nat)
    (sectorSize fileSize numSectors flags key : Nat) :
    Nat → Nat → Except String (List Nat)
  | _, 0 => .ok []
  | i, rem + 1 =>
      let sectorStart := offs.getD i 0
      let sectorEnd := offs.getD (i + 1) 0
      if sectorStart > data.length ∨ sectorEnd > data.length ∨ sectorEnd < sectorStart then
        .error ("invalid sector offsets: " ++ toString sectorStart ++ "-" ++ toString sectorEnd)
      else
        let sectorData := decryptBytes ((data.drop sectorStart).take (sectorEnd - sectorStart))
          ((key + i) % M32)
        let expectedSize := if i = numSectors - 1 then fileSize - i * sectorSize else sectorSize
        let step : Except String (List Nat) :=
          if flags &&& fileCompress ≠ 0 ∧ sectorData.length < expectedSize then
            wrapErr ("decompress sector " ++ toString i ++ ": ")
              (decompressData B sectorData expectedSize)
          else .ok sectorData
        match step with
        | .error e => .error e
        | .ok out =>
            if crcs.length ≠ 0 ∧ adler32 out ≠ crcs.getD i 0 then
              .error ("sector CRC mismatch for sector " ++ toString i ++ ": expected 0x" ++
                hex32 (crcs.getD i 0) ++ " got 0x" ++ hex32 (adler32 out))
            else
              match encSectorLoop B data offs crcs sectorSize fileSize numSectors flags key (i + 1) rem with
              | .error e => .error e
              | .ok rest => .ok (out ++ rest)

/-- The `decryptAndDecompressSectors` (mpq.go): encrypted sector-based read;
the offset table is decrypted with `key-1`, the optional CRC table with
`key-1+numSectors`, sector `i` with `key+i`. -/
def decryptAndDecompressSectors (B : Backends) (data : List Nat)
    (block : BlockEntry) (sectorSize key : Nat) : Except String (List Nat) :=
  let numSectors := (block.FileSize + sectorSize - 1) / sectorSize
  let offsetTableSize := (numSectors + 1) * 4
  if data.length < offsetTableSize then .error "data too small for sector offset table"
  else
    let offs := decryptBlock (readOffsetTable data (numSectors + 1)) (sub32 key 1)
    let crcStep : Except String (List Nat) :=
      if block.Flags &&& fileSectorCRC ≠ 0 then
        let firstDataOffset := offs.getD 0 0
        let crcTableEnd := offsetTableSize + numSectors * 4
        if crcTableEnd ≤ firstDataOffset then
          if data.length < crcTableEnd then .error "sector CRC table out of range"
          else .ok (decryptBlock
            ((List.range numSectors).map (fun i => le32At data (offsetTableSize + i * 4)))
            ((sub32 key 1 + numSectors) % M32))
        else .ok []
      else .ok []
    match crcStep with
    | .error e => .error e
    | .ok crcs =>
        encSectorLoop B data offs crcs sectorSize block.FileSize numSectors
          block.Flags key 0 numSectors

/-- The `ExtractFile` (mpq.go): the full read decision tree.  The destination
path handling (directory creation, file write) is I/O glue; the model
returns the extracted bytes. -/
def Archive.ExtractFile (B : Backends) (a : Archive) (mpqPath : String) :
    Except String (List Nat) :=
  if ¬(a.mode = "r" ∨ a.mode = "m") then .error "archive not opened for reading"
  else
    let path := replaceSlash mpqPath
    match findFile a path with
    | none => .error ("file not found: " ++ path)
    | some block =>
        let blockPos := block.getFilePos64
        let filePos := blockPos + a.header.ArchiveOffset
        match readSlice a.fileBytes filePos block.CompressedSize with
        | none => .error "read file data"
        | some compressedData =>
            if block.Flags &&& fileEncrypted ≠ 0 then
              let key := getFileKey path blockPos block.FileSize block.Flags
              if block.Flags &&& fileSingleUnit ≠ 0 then
                wrapErr "decrypt single unit file: "
                  (decryptAndDecompressSingleUnit B compressedData block key)
              else
                wrapErr "decrypt sectored file: "
                  (decryptAndDecompressSectors B compressedData block a.sectorSize key)
            else if block.Flags &&& fileCompress ≠ 0 then
              if block.Flags &&& fileSingleUnit ≠ 0 then
                if block.Flags &&& fileSectorCRC ≠ 0 then
                  if compressedData.length < 4 then
                    .error "missing sector CRC for single unit file"
                  else
                    let dataToDecompress := compressedData.take (compressedData.length - 4)
                    let crcExpected := le32At compressedData (compressedData.length - 4)
                    match decompressData B dataToDecompress block.FileSize with
                    | .error e => .error ("decompress file: " ++ e)
                    | .ok decompressed =>
                        let crcActual := adler32 decompressed
                        if crcActual ≠ crcExpected then
                          .error (crcMismatchMsg crcExpected crcActual)
                        else .ok decompressed
                else if block.CompressedSize < block.FileSize then
                  wrapErr "decompress file: " (decompressData B compressedData block.FileSize)
                else .ok compressedData
              else
                wrapErr "decompress sectors: " (decompressSectors B compressedData block a.sectorSize)
            else
              if block.Flags &&& fileSingleUnit ≠ 0 ∧ block.Flags &&& fileSectorCRC ≠ 0 then
                if compressedData.length < 4 then
                  .error "missing sector CRC for single unit file"
                else
                  let payload := compressedData.take (compressedData.length - 4)
                  let crcExpected := le32At compressedData (compressedData.length - 4)
                  let crcActual := adler32 payload
                  if crcActual ≠ crcExpected then .error (crcMismatchMsg crcExpected crcActual)
                  else .ok payload
              else .ok compressedData

/-! ## Listfile parsing (mpq.go `ListFiles`) -/

/-- Decode extracted bytes as a string (ASCII contents in this library's
listfiles; Go's `string(data)` UTF-8 decode agrees on ASCII). -/
def bytesToString (data : List Nat) : String :=
  String.mk (data.map Char.ofNat)

/-- Go `strings.ReplaceAll(s, "\r\n", "\n")`, left to right. -/
def replaceCRLF : List Char → List Char
  | '\r' :: '\n' :: rest => '\n' :: replaceCRLF rest
  | c :: rest => c :: replaceCRLF rest
  | [] => []

/-- ASCII whitespace (the fragment of `unicode.IsSpace` relevant to this
library's ASCII listfiles). -/
def isSpaceGo (c : Char) : Bool :=
  c = ' ' || c = '\t' || c = '\n' || c = Char.ofNat 11 || c = Char.ofNat 12 || c = '\r'

/-- Go `strings.TrimSpace` (ASCII fragment). -/
def trimSpace (s : String) : String :=
  String.mk (((s.data.dropWhile isSpaceGo).reverse.dropWhile isSpaceGo).reverse)

/-- Go `strings.Split(s, "\n")`: split on newline, preserving empty parts. -/
def splitLines : List Char → List (List Char)
  | [] => [[]]
  | '\n' :: rest => [] :: splitLines rest
  | c :: rest =>
      match splitLines rest with
      | [] => [[c]]
      | l :: ls => (c :: l) :: ls

/-- The `ListFiles` (mpq.go): extract `(listfile)`, split lines, trim, drop
empties and the `(listfile)` name itself. -/
def ListFiles (B : Backends) (a : Archive) : Except String (List String) :=
  if ¬(a.mode = "r" ∨ a.mode = "m") then .error "archive not opened for reading"
  else
    match Archive.ExtractFile B a "(listfile)" with
    | .error e => .error ("extract listfile: " ++ e)
    | .ok data =>
        let content := String.mk (replaceCRLF (bytesToString data).data)
        let lines := (splitLines content.data).map String.mk
        .ok ((lines.map trimSpace).filter (fun l => l ≠ "" ∧ l ≠ "(listfile)"))

/-! ## Write path (crypt.go `writeArchive`, `writeSectoredFile`,
`addToHashTable`; attributes source file) -/

/-- Loop of `addToHashTable` (crypt.go): linear probe for an empty or
deleted slot; `none` models the `"hash table full"` error after a full
pass. -/
def addToHashTableLoop (ht : List HashEntry) (size hashA hashB blockIndex start : Nat) :
    Nat → Nat → Option (List HashEntry)
  | _, 0 => none
  | i, rem + 1 =>
      let idx := (start + i) % size
      let e := ht.getD idx default
      if e.BlockIndex = hashTableEmpty ∨ e.BlockIndex = hashTableDeleted then
        some (ht.set idx ⟨hashA, hashB, 0, 0, blockIndex⟩)
      else addToHashTableLoop ht size hashA hashB blockIndex start (i + 1) rem

/-- The `addToHashTable` (crypt.go): insert `mpqPath ↦ blockIndex` with
locale 0 and platform 0. -/
def addToHashTable (ht : List HashEntry) (size : Nat) (mpqPath : String)
    (blockIndex : Nat) : Option (List HashEntry) :=
  addToHashTableLoop ht size (hashString mpqPath 1) (hashString mpqPath 2)
    blockIndex (hashString mpqPath 0 % size) 0 size

/-- The `attributesWriter.setEntry`: out-of-range indices are ignored; `none`
data stores a zero CRC (used for the `(attributes)` slot itself). -/
def setEntry (slots : List Nat) (index : Nat) (data : Option (List Nat)) : List Nat :=
  if index < slots.length then
    slots.set index (match data with | none => 0 | some d => crc32 d)
  else slots

/-- The `attributesWriter.build`: version 100, flag mask 1 (CRC32 present),
then one little-endian CRC32 per block slot; empty when no slots. -/
def attrBuild (slots : List Nat) : List Nat :=
  if slots.length = 0 then []
  else le32Bytes 100 ++ le32Bytes 1 ++ slots.flatMap le32Bytes

/-- The compressed-or-raw encoding of one sector in `writeSectoredFile`
(crypt.go): compress, keep the compressed form only if strictly smaller. -/
def encodeSector (B : Backends) (sectorData : List Nat) : List Nat :=
  let compressed := compressData B sectorData
  if compressed.length < sectorData.length then compressed else sectorData

/-- The uncompressed bytes of sector `i`. -/
def sectorSlice (data : List Nat) (sectorSize i : Nat) : List Nat :=
  (data.drop (i * sectorSize)).take sectorSize

/-- The cumulative sector offset table of `writeSectoredFile`: entry `i`
is the start of sector `i`'s stored bytes, the final entry the total. -/
def offsetsFrom (start : Nat) : List (List Nat) → List Nat
  | [] => [start]
  | s :: rest => start :: offsetsFrom (start + s.length) rest

/-- The `writeSectoredFile` (crypt.go): offset table, optional Adler-32 table
over the uncompressed sector bytes, then the per-sector payloads.
Returns the buffer and its total size. -/
def writeSectoredFile (B : Backends) (sectorSize : Nat) (data : List Nat)
    (useCRC : Bool) : List Nat × Nat :=
  let numSectors := (data.length + sectorSize - 1) / sectorSize
  let offsetTableSize := (numSectors + 1) * 4
  let crcTableSize := if useCRC then numSectors * 4 else 0
  let sectors := (List.range numSectors).map
    (fun i => encodeSector B (sectorSlice data sectorSize i))
  let offsetTable := offsetsFrom (offsetTableSize + crcTableSize) sectors
  let crcs := (List.range numSectors).map (fun i => adler32 (sectorSlice data sectorSize i))
  let result := offsetTable.flatMap le32Bytes ++
    (if useCRC then crcs.flatMap le32Bytes else []) ++ sectors.flatten
  (result, offsetTableSize + crcTableSize + (sectors.map List.length).sum)

/-- The single-unit encoding in `writeArchive` (crypt.go, single-unit
branch): compress the whole payload, keep it only if strictly smaller,
then optionally append a little-endian Adler-32 of the *stored* bytes.
Returns the stored bytes and the block flags. -/
def writeSingleUnitData (B : Backends) (data : List Nat) (generateCRC : Bool) :
    List Nat × Nat :=
  let compressed := compressData B data
  let (d0, f0) :=
    if compressed.length < data.length then
      (compressed, fileExists ||| fileSingleUnit ||| fileCompress)
    else (data, fileExists ||| fileSingleUnit)
  if generateCRC then (d0 ++ le32Bytes (adler32 d0), f0 ||| fileSectorCRC)
  else (d0, f0)

/-- The mutable state threaded through `writeArchive` (crypt.go): the
output file buffer, block table, hash table, `(listfile)` content,
attributes CRC slots, and the hi-block-table flag. -/
structure WriteState where
  buf : List Nat
  bt : List BlockEntry
  ht : List HashEntry
  lfc : String
  attrs : List Nat
  needsHi : Bool
deriving DecidableEq, Repr

/-- The pending-files loop of `writeArchive` (crypt.go): serialize each
queued file in insertion order, building block table, hash table,
listfile content and attributes. -/
def writePendingLoop (B : Backends) (sectorSize size : Nat) :
    List PendingFile → Nat → WriteState → Except String WriteState
  | [], _, st => .ok st
  | pf :: rest, i, st =>
      let filePos := st.buf.length
      let needsHi := st.needsHi || decide (filePos > 0xFFFFFFFF)
      if pf.isDeleteMarker then
        let be : BlockEntry := ⟨filePos % M32, 0, 0, fileDeleteMarker ||| fileExists,
          (filePos >>> 32) % 65536⟩
        let bt' := st.bt ++ [be]
        match addToHashTable st.ht size pf.mpqPath (bt'.length - 1) with
        | none => .error "add to hash table: hash table full"
        | some ht' =>
            writePendingLoop B sectorSize size rest (i + 1)
              { st with bt := bt', ht := ht',
                        lfc := st.lfc ++ pf.mpqPath ++ "\r\n", needsHi := needsHi }
      else
        let (dataToWrite, flags0) :=
          if pf.data.length > sectorSize * 2 then
            ((writeSectoredFile B sectorSize pf.data pf.generateCRC).1,
              (fileExists ||| fileCompress) |||
                (if pf.generateCRC then fileSectorCRC else 0))
          else writeSingleUnitData B pf.data pf.generateCRC
        let flags := flags0 ||| (if pf.isPatchFile then filePatchFile else 0)
        let be : BlockEntry := ⟨filePos % M32, dataToWrite.length, pf.data.length, flags,
          (filePos >>> 32) % 65536⟩
        let bt' := st.bt ++ [be]
        match addToHashTable st.ht size pf.mpqPath (bt'.length - 1) with
        | none => .error "add to hash table: hash table full"
        | some ht' =>
            writePendingLoop B sectorSize size rest (i + 1)
              { buf := st.buf ++ dataToWrite, bt := bt', ht := ht',
                lfc := st.lfc ++ pf.mpqPath ++ "\r\n",
                attrs := setEntry st.attrs i (some pf.data), needsHi := needsHi }

/-- Append a single-unit special file (`(listfile)` / `(attributes)`
emission in `writeArchive`): compress-if-smaller, write, extend block
table.  Returns the new buffer, block entry and hi flag. -/
def writeSpecialFile (B : Backends) (buf fileData : List Nat) (needsHi : Bool) :
    List Nat × BlockEntry × Bool :=
  let filePos := buf.length
  let needsHi' := needsHi || decide (filePos > 0xFFFFFFFF)
  let compressed := compressData B fileData
  let (dataToWrite, flags) :=
    if compressed.length < fileData.length then
      (compressed, fileExists ||| fileSingleUnit ||| fileCompress)
    else (fileData, fileExists ||| fileSingleUnit)
  (buf ++ dataToWrite,
   ⟨filePos % M32, dataToWrite.length, fileData.length, flags, (filePos >>> 32) % 65536⟩,
   needsHi')

/-- The on-disk serialization of the hash table (crypt.go): 4 `uint32`
columns per entry, locale and platform packed into one word. -/
def hashTableWords (ht : List HashEntry) : List Nat :=
  ht.flatMap (fun e => [e.HashA, e.HashB, e.Locale ||| (e.Platform <<< 16), e.BlockIndex])

/-- The on-disk serialization of the block table (crypt.go). -/
def blockTableWords (bt : List BlockEntry) : List Nat :=
  bt.flatMap (fun e => [e.FilePos, e.CompressedSize, e.FileSize, e.Flags])

/-- The `writeArchiveHeader` (format.go): little-endian base header, plus the
12 extended bytes for V2. -/
def writeArchiveHeaderBytes (h : ArchiveHeader) : List Nat :=
  le32Bytes h.Magic ++ le32Bytes h.HeaderSize ++ le32Bytes h.ArchiveSize ++
  le16Bytes h.FormatVersion ++ le16Bytes h.SectorSizeShift ++
  le32Bytes h.HashTableOffset ++ le32Bytes h.BlockTableOffset ++
  le32Bytes h.HashTableSize ++ le32Bytes h.BlockTableSize ++
  (if 1 ≤ h.FormatVersion then
    le64Bytes h.HiBlockTableOffset64 ++ le16Bytes h.HashTableOffsetHi ++
    le16Bytes h.BlockTableOffsetHi
  else [])

/-- The `writeArchive` (crypt.go): the full serialization producing the bytes
of the archive file (user files, `(listfile)`, `(attributes)`, encrypted
hash and block tables, optional hi-block table, backfilled header). -/
def writeArchive (B : Backends) (a : Archive) : Except String (List Nat) :=
  let size := a.header.HashTableSize
  let emptyE : HashEntry := ⟨0xFFFFFFFF, 0xFFFFFFFF, 0xFFFF, 0xFFFF, hashTableEmpty⟩
  let actualFileCount := a.pendingFiles.length
  let totalBlockCount := if actualFileCount > 0 then actualFileCount + 2 else actualFileCount
  let st0 : WriteState :=
    ⟨List.replicate a.header.HeaderSize 0, [], List.replicate a.hashTable.length emptyE,
     "", List.replicate totalBlockCount 0, false⟩
  match writePendingLoop B a.sectorSize size a.pendingFiles 0 st0 with
  | .error e => .error e
  | .ok st1 =>
      -- (listfile)
      let afterList : Except String WriteState :=
        if st1.lfc ≠ "" then
          let listFileData := strBytes st1.lfc
          let (buf', be, hi') := writeSpecialFile B st1.buf listFileData st1.needsHi
          let bt' := st1.bt ++ [be]
          let attrs' := setEntry st1.attrs a.pendingFiles.length (some listFileData)
          match addToHashTable st1.ht size "(listfile)" (bt'.length - 1) with
          | none => .error "add listfile to hash table: hash table full"
          | some ht' => .ok ⟨buf', bt', ht', st1.lfc, attrs', hi'⟩
        else .ok st1
      match afterList with
      | .error e => .error e
      | .ok st2 =>
          -- (attributes)
          let attributesIndex := a.pendingFiles.length + (if st1.lfc ≠ "" then 1 else 0)
          let attrs2 := setEntry st2.attrs attributesIndex none
          let attributesData := attrBuild attrs2
          let afterAttr : Except String WriteState :=
            if attributesData.length > 0 then
              let (buf', be, hi') := writeSpecialFile B st2.buf attributesData st2.needsHi
              let bt' := st2.bt ++ [be]
              match addToHashTable st2.ht size "(attributes)" (bt'.length - 1) with
              | none => .error "add attributes to hash table: hash table full"
              | some ht' => .ok ⟨buf', bt', ht', st2.lfc, attrs2, hi'⟩
            else .ok { st2 with attrs := attrs2 }
          match afterAttr with
          | .error e => .error e
          | .ok st3 =>
              let hashTableOffset := st3.buf.length
              let encHash := encryptBlock (hashTableWords st3.ht)
                (hashString "(hash table)" 3)
              let buf4 := st3.buf ++ wordsToBytes encHash
              let blockTableOffset := buf4.length
              let encBlock := encryptBlock (blockTableWords st3.bt)
                (hashString "(block table)" 3)
              let buf5 := buf4 ++ wordsToBytes encBlock
              let hiBlockTableOffset := buf5.length
              let buf6 :=
                if a.formatVersion = 1 ∧ st3.needsHi then
                  buf5 ++ st3.bt.flatMap (fun e => le16Bytes e.FilePosHi)
                else buf5
              let archiveSize := (buf6.length - a.header.HeaderSize) % M32
              let header' : ArchiveHeader :=
                { a.header with
                  ArchiveSize := archiveSize,
                  HashTableOffset := hashTableOffset % M32,
                  HashTableOffsetHi := (hashTableOffset >>> 32) % 65536,
                  BlockTableOffset := blockTableOffset % M32,
                  BlockTableOffsetHi := (blockTableOffset >>> 32) % 65536,
                  BlockTableSize := st3.bt.length,
                  HiBlockTableOffset64 :=
                    if a.formatVersion = 1 then
                      (if st3.needsHi then hiBlockTableOffset else 0)
                    else a.header.HiBlockTableOffset64 }
              .ok (writeArchiveHeaderBytes header' ++ buf6.drop a.header.HeaderSize)

/-! ## Archive lifecycle (mpq.go `CreateWithVersion`, `Open`,
`AddFile*`, `AddDeleteMarker`) -/

/-- The `CreateWithVersion` (mpq.go): a fresh write-mode archive with the
pre-sized hash table (temp-file creation is I/O glue).  `version` is 0
for V1, 1 for V2. -/
def CreateWithVersion (maxFiles version : Nat) : Archive :=
  let hashTableSize := hashTableSizeFor maxFiles
  let headerSize := if version = 1 then headerSizeV2 else headerSizeV1
  let formatVer := if version = 1 then 1 else 0
  { mode := "w",
    header := ⟨mpqMagic, headerSize, 0, formatVer, defaultSectorSizeShift,
      0, 0, hashTableSize, 0, 0, 0, 0, 0⟩,
    hashTable := List.replicate hashTableSize default,
    blockTable := [], pendingFiles := [],
    sectorSize := defaultSectorSize, formatVersion := version, fileBytes := [] }

/-- The `AddFileWithOptions` (mpq.go): queue a pending file (the source bytes
are read from disk by I/O glue and passed here directly). -/
def AddFileWithOptions (a : Archive) (data : List Nat) (mpqPath : String)
    (generateCRC : Bool) : Except String Archive :=
  if ¬(a.mode = "w" ∨ a.mode = "m") then
    .error "archive not opened for writing or modification"
  else
    .ok { a with pendingFiles :=
      a.pendingFiles ++ [⟨replaceSlash mpqPath, data, generateCRC, false, false⟩] }

/-- The `AddPatchFile` (mpq.go). -/
def AddPatchFile (a : Archive) (data : List Nat) (mpqPath : String) :
    Except String Archive :=
  if ¬(a.mode = "w" ∨ a.mode = "m") then
    .error "archive not opened for writing or modification"
  else
    .ok { a with pendingFiles :=
      a.pendingFiles ++ [⟨replaceSlash mpqPath, data, false, true, false⟩] }

/-- The `AddDeleteMarker` (mpq.go). -/
def AddDeleteMarker (a : Archive) (mpqPath : String) : Except String Archive :=
  if ¬(a.mode = "w" ∨ a.mode = "m") then
    .error "archive not opened for writing or modification"
  else
    .ok { a with pendingFiles :=
      a.pendingFiles ++ [⟨replaceSlash mpqPath, [], false, false, true⟩] }

/-- Little-endian decode of 2 bytes. -/
def le16At (data : List Nat) (off : Nat) : Nat :=
  data.getD off 0 ||| (data.getD (off + 1) 0 <<< 8)

/-- Little-endian decode of 8 bytes. -/
def le64At (data : List Nat) (off : Nat) : Nat :=
  le32At data off ||| (le32At data (off + 4) <<< 32)

/-- The `readArchiveHeader` (format.go) at byte position `origin`: the
32-byte base header, plus the 12 extended bytes when the format version
and header size call for them; `none` models a short read. -/
def readArchiveHeader (bytes : List Nat) (origin : Nat) : Option ArchiveHeader :=
  if origin + 32 ≤ bytes.length then
    let magic := le32At bytes origin
    let headerSize := le32At bytes (origin + 4)
    let archiveSize := le32At bytes (origin + 8)
    let formatVersion := le16At bytes (origin + 12)
    let sectorSizeShift := le16At bytes (origin + 14)
    let hashTableOffset := le32At bytes (origin + 16)
    let blockTableOffset := le32At bytes (origin + 20)
    let hashTableSize := le32At bytes (origin + 24)
    let blockTableSize := le32At bytes (origin + 28)
    if 1 ≤ formatVersion ∧ headerSizeV2 ≤ headerSize then
      if origin + 44 ≤ bytes.length then
        some ⟨magic, headerSize, archiveSize, formatVersion, sectorSizeShift,
          hashTableOffset, blockTableOffset, hashTableSize, blockTableSize,
          le64At bytes (origin + 32), le16At bytes (origin + 40),
          le16At bytes (origin + 42), origin⟩
      else none
    else
      some ⟨magic, headerSize, archiveSize, formatVersion, sectorSizeShift,
        hashTableOffset, blockTableOffset, hashTableSize, blockTableSize,
        0, 0, 0, origin⟩
  else none

/-- Scan loop for the archive header, positions `p, p+512, ...`. -/
def scanHeader (bytes : List Nat) : Nat → Nat → Option ArchiveHeader
  | _, 0 => none
  | p, fuel + 1 =>
      if p + 4 ≤ bytes.length then
        if le32At bytes p = mpqMagic then readArchiveHeader bytes p
        else scanHeader bytes (p + 512) fuel
      else none

/-- Modelled from the spec: `findArchiveHeader` is called by `Open` /
`OpenForModify` (mpq.go) but its definition is not among the provided
source files.  Spec §4.3: scan the file for the magic `MPQ\x1A` at
successive 512-byte alignments (user-data envelopes may precede the real
archive) and remember the byte offset of the found header as the archive
origin, to which all table offsets are added. -/
def findArchiveHeader (bytes : List Nat) : Option ArchiveHeader :=
  scanHeader bytes 0 (bytes.length / 512 + 1)

/-- The `Open` (mpq.go): parse the header, read and decrypt the hash and
block tables, attach hi-block high halves for V2, and build the
read-mode archive handle. -/
def openArchive (bytes : List Nat) : Except String Archive :=
  match findArchiveHeader bytes with
  | none => .error "read header"
  | some header =>
      if header.Magic ≠ mpqMagic then
        .error ("invalid MPQ magic: 0x" ++ hex32 header.Magic)
      else if header.FormatVersion > 1 then
        .error ("unsupported MPQ format version: " ++ toString header.FormatVersion ++
          " (only V1 and V2 are supported)")
      else
        let hashTableOffset := header.getHashTableOffset64 + header.ArchiveOffset
        match readSlice bytes hashTableOffset (header.HashTableSize * 16) with
        | none => .error "read hash table"
        | some htBytes =>
            let hw := decryptBlock (bytesToWords htBytes) (hashString "(hash table)" 3)
            let hashTable := (List.range header.HashTableSize).map (fun i =>
              (⟨hw.getD (i*4) 0, hw.getD (i*4+1) 0, hw.getD (i*4+2) 0 &&& 0xFFFF,
                hw.getD (i*4+2) 0 >>> 16, hw.getD (i*4+3) 0⟩ : HashEntry))
            let blockTableOffset := header.getBlockTableOffset64 + header.ArchiveOffset
            match readSlice bytes blockTableOffset (header.BlockTableSize * 16) with
            | none => .error "read block table"
            | some btBytes =>
                let bw := decryptBlock (bytesToWords btBytes) (hashString "(block table)" 3)
                let blockTable := (List.range header.BlockTableSize).map (fun i =>
                  (⟨bw.getD (i*4) 0, bw.getD (i*4+1) 0, bw.getD (i*4+2) 0,
                    bw.getD (i*4+3) 0, 0⟩ : BlockEntry))
                if 1 ≤ header.FormatVersion ∧ header.HiBlockTableOffset64 ≠ 0 then
                  let hiOffset := header.HiBlockTableOffset64 + header.ArchiveOffset
                  match readSlice bytes hiOffset (header.BlockTableSize * 2) with
                  | none => .error "read hi-block table"
                  | some hiBytes =>
                      let blockTable' := (List.range header.BlockTableSize).map (fun i =>
                        { blockTable.getD i default with FilePosHi := le16At hiBytes (i*2) })
                      .ok { mode := "r", header := header, hashTable := hashTable,
                            blockTable := blockTable', pendingFiles := [],
                            sectorSize := 1 <<< header.SectorSizeShift,
                            formatVersion := header.FormatVersion, fileBytes := bytes }
                else
                  .ok { mode := "r", header := header, hashTable := hashTable,
                        blockTable := blockTable, pendingFiles := [],
                        sectorSize := 1 <<< header.SectorSizeShift,
                        formatVersion := header.FormatVersion, fileBytes := bytes }

/-! ## Patch chain resolver (patch_chain.go) -/

/-- Does the character list contain a double backslash? -/
def containsDoubleBS : List Char → Bool
  | '\\' :: '\\' :: _ => true
  | _ :: rest => containsDoubleBS rest
  | [] => false

/-- One `strings.ReplaceAll(s, "\\\\", "\\")` pass (left to right,
non-overlapping). -/
def replacePairsBS : List Char → List Char
  | '\\' :: '\\' :: rest => '\\' :: replacePairsBS rest
  | c :: rest => c :: replacePairsBS rest
  | [] => []

/-- The `for strings.Contains .. ReplaceAll` fixpoint loop of
`normalizeMpqPath` (patch_chain.go).  Each pass strictly shortens a
string containing a pair, so `length s` passes always reach the
fixpoint the Go loop computes. -/
def collapseBS : Nat → List Char → List Char
  | 0, s => s
  | n + 1, s => if containsDoubleBS s then collapseBS n (replacePairsBS s) else s

/-- The `normalizeMpqPath` (patch_chain.go): forward slashes to backslashes,
upper-case (ASCII fragment of `strings.ToUpper`), collapse double
backslashes. -/
def normalizeMpqPath (path : String) : String :=
  let s := (replaceSlash path).data.map asciiUpper
  String.mk (collapseBS s.length s)

/-- The `PatchChain` (patch_chain.go): member archives in ascending priority
and the normalized-name → archive-index cache.  The per-archive patch
metadata map is not needed by any claim and omitted. -/
structure PatchChain where
  archives : List Archive
  fileMap : List (String × Nat)
  cacheBuilt : Bool

/-- Lookup in the name → index map (Go `map[string]int` read). -/
def alookup (m : List (String × Nat)) (k : String) : Option Nat :=
  (m.find? (fun p => p.1 == k)).map (fun p => p.2)

/-- The inner loop of `rebuildFileMap`: insert each listed name of
archive `i` on first sight. -/
def insertFiles (files : List String) (i : Nat) (m : List (String × Nat)) :
    List (String × Nat) :=
  files.foldl (fun acc f =>
    let key := normalizeMpqPath f
    match alookup acc key with
    | some _ => acc
    | none => acc ++ [(key, i)]) m

/-- The outer loop of `rebuildFileMap` (patch_chain.go): archives from
highest priority (last) down to index 0; archives whose `ListFiles`
fails are skipped. -/
def rebuildLoop (B : Backends) (archives : List Archive) :
    Nat → List (String × Nat) → List (String × Nat)
  | 0, m => m
  | c + 1, m =>
      let m' := match ListFiles B (archives.getD c default) with
        | .error _ => m
        | .ok files => insertFiles files c m
      rebuildLoop B archives c m'

/-- The `rebuildFileMap` (patch_chain.go).  It never returns an error. -/
def rebuildFileMap (B : Backends) (archives : List Archive) : List (String × Nat) :=
  rebuildLoop B archives archives.length []

/-- The `OpenPatchChain` (patch_chain.go): open members in order and build
the cache eagerly (`rebuildFileMap` cannot fail). -/
def OpenPatchChain (B : Backends) (archives : List Archive) : PatchChain :=
  ⟨archives, rebuildFileMap B archives, true⟩

/-- The `PatchChain.HasFile` (patch_chain.go): cache lookup, then a fresh
block lookup in the chosen archive, rejecting delete markers. -/
def PatchChain.HasFile (B : Backends) (p : PatchChain) (mpqPath : String) : Bool :=
  let fm := if p.cacheBuilt then p.fileMap else rebuildFileMap B p.archives
  match alookup fm (normalizeMpqPath mpqPath) with
  | none => false
  | some idx =>
      let archive := p.archives.getD idx default
      let path := replaceSlash mpqPath
      match findFile archive path with
      | none => false
      | some block => block.Flags &&& fileDeleteMarker == 0

/-- The `PatchChain.ExtractFile` (patch_chain.go): resolve through the cache,
surface delete markers as `"file marked for deletion in patch"`, else
delegate to the chosen archive's `ExtractFile`. -/
def PatchChain.ExtractFile (B : Backends) (p : PatchChain) (mpqPath : String) :
    Except String (List Nat) :=
  let fm := if p.cacheBuilt then p.fileMap else rebuildFileMap B p.archives
  match alookup fm (normalizeMpqPath mpqPath) with
  | none => .error ("file not found in patch chain: " ++ mpqPath)
  | some idx =>
      let archive := p.archives.getD idx default
      let path := replaceSlash mpqPath
      match findFile archive path with
      | none => .error ("file not found in patch chain: " ++ path)
      | some block =>
          if block.Flags &&& fileDeleteMarker ≠ 0 then
            .error ("file marked for deletion in patch: " ++ path)
          else Archive.ExtractFile B archive path

/-! ## Auxiliary definitions for the correctness statements -/

instance {ε α : Type} [DecidableEq ε] [DecidableEq α] : DecidableEq (Except ε α)
  | .ok a, .ok b => by
      cases h : decide (a = b) with
      | true => exact isTrue (by simp_all)
      | false => exact isFalse (by simp_all)
  | .ok _, .error _ => isFalse (by intro h; cases h)
  | .error _, .ok _ => isFalse (by intro h; cases h)
  | .error a, .error b => by
      cases h : decide (a = b) with
      | true => exact isTrue (by simp_all)
      | false => exact isFalse (by simp_all)

/-- The OR of `m >>> j` over all `j < t`, the semantic reading of the
bit-smearing cascade in `nextPowerOf2`. -/
def orShifts (m : Nat) : Nat → Nat
  | 0 => 0
  | t + 1 => orShifts m t ||| (m >>> t)

/-! ## Concrete fixtures used by witnesses and counterexamples -/

/-- A decompressor backend that always fails (the PKWARE and BZip2
backends are never reached in the scenarios below). -/
def noneD : List Nat → Nat → Except String (List Nat) := fun _ _ => .error "unsupported"

/-- Backends whose zlib compressor is the identity: the `0x02` prefix
then makes every "compressed" form larger, so the writer always stores
raw and the reader never decompresses. -/
def Bid : Backends := ⟨fun l => l, fun _ _ => .error "zlib", noneD, noneD⟩

/-- A 50-byte compressible payload (all `'a'`). -/
def demoData : List Nat := List.replicate 50 97

/-- Backends for the CRC round-trip scenario: the zlib compressor shrinks
every input to one byte, and the decompressor inverts it exactly for the
demo payload. -/
def B0 : Backends :=
  ⟨fun _ => [0],
   fun l n => if l = [0] ∧ n = 50 then .ok demoData else .error "zlib: bad input",
   noneD, noneD⟩

/-- Result of `Create("...", 10)` then `AddFileWithCRC` of the demo payload. -/
def demoW : Archive :=
  (AddFileWithOptions (CreateWithVersion 10 0) demoData "Data\\T.txt" true).toOption.getD default

/-- The bytes of the archive file written for `demoW`. -/
def demoBytes : List Nat := (writeArchive B0 demoW).toOption.getD []

/-- The archive re-opened from `demoBytes`. -/
def demoArc : Archive := (openArchive demoBytes).toOption.getD default

/-- Result of `Create("...", 10)` with no files added. -/
def emptyW : Archive := CreateWithVersion 10 0

/-- The bytes of the empty archive file. -/
def emptyBytes : List Nat := (writeArchive Bid emptyW).toOption.getD []

/-- The empty archive re-opened from `emptyBytes`. -/
def emptyArc : Archive := (openArchive emptyBytes).toOption.getD default

/-- The empty hash-table sentinel entry as serialized by `writeArchive`. -/
def emptyHE : HashEntry := ⟨0xFFFFFFFF, 0xFFFFFFFF, 0xFFFF, 0xFFFF, hashTableEmpty⟩

/-- Build the backing bytes, block table and hash table of a small
read-mode archive fixture holding the given `(path, bytes, flags)` files
back to back (single-unit raw storage, as the writer produces for
incompressible payloads). -/
def liteLoop (acc : List Nat) (bts : List BlockEntry) (ht : List HashEntry)
    (size i : Nat) : List (String × List Nat × Nat) →
    List Nat × List BlockEntry × List HashEntry
  | [] => (acc, bts, ht)
  | (p, d, fl) :: rest =>
      liteLoop (acc ++ d) (bts ++ [⟨acc.length, d.length, d.length, fl, 0⟩])
        ((addToHashTable ht size p (bts.length)).getD ht) size (i + 1) rest

/-- A small read-mode archive fixture (hash-table size `size`). -/
def liteArchive (size : Nat) (files : List (String × List Nat × Nat)) : Archive :=
  let r := liteLoop [] [] (List.replicate size emptyHE) size 0 files
  { mode := "r",
    header := ⟨mpqMagic, headerSizeV1, 0, 0, defaultSectorSizeShift, 0, 0,
      size, r.2.1.length, 0, 0, 0, 0⟩,
    hashTable := r.2.2, blockTable := r.2.1, pendingFiles := [],
    sectorSize := defaultSectorSize, formatVersion := 0, fileBytes := r.1 }

/-- Base archive of the patch-chain scenarios: `Data\File.txt = "Base"`
plus its `(listfile)`. -/
def baseLite : Archive :=
  liteArchive 4 [("Data\\File.txt", strBytes "Base", fileExists ||| fileSingleUnit),
                 ("(listfile)", strBytes "Data\\File.txt\r\n", fileExists ||| fileSingleUnit)]

/-- Patch archive overriding `Data\File.txt` with `"Patch"`. -/
def patchLite : Archive :=
  liteArchive 4 [("Data\\File.txt", strBytes "Patch", fileExists ||| fileSingleUnit),
                 ("(listfile)", strBytes "Data\\File.txt\r\n", fileExists ||| fileSingleUnit)]

/-- Patch archive carrying a delete marker for `Data\File.txt`. -/
def delLite : Archive :=
  liteArchive 4 [("Data\\File.txt", [], fileDeleteMarker ||| fileExists),
                 ("(listfile)", strBytes "Data\\File.txt\r\n", fileExists ||| fileSingleUnit)]

/-- The block entry of `Data\File.txt` inside `patchLite`. -/
def patchBlockLite : BlockEntry := ⟨0, 5, 5, fileExists ||| fileSingleUnit, 0⟩

/-- The delete-marker block entry inside `delLite`. -/
def delBlockLite : BlockEntry := ⟨0, 0, 0, fileDeleteMarker ||| fileExists, 0⟩

/-- A one-slot archive whose single hash entry points at a live block. -/
def c9Arc : Archive := liteArchive 1 [("A", [7], fileExists)]

/-- An archive whose hash entry references block index 5 while the block
table has a single entry: the lookup must skip it and report not-found. -/
def c9Bad : Archive :=
  { c9Arc with hashTable := [⟨hashString "A" 1, hashString "A" 2, 0, 0, 5⟩] }

/-- The block entry found in `c9Arc`. -/
def c9Block : BlockEntry := ⟨0, 1, 1, fileExists, 0⟩

/-- A modify-mode archive whose block table holds a matching entry
flagged as both a delete marker and a patch file. -/
def c10Arc : Archive :=
  { liteArchive 1 [("X", [], fileDeleteMarker ||| filePatchFile ||| fileExists)]
    with mode := "m" }

/-- A conforming 1-sector stored buffer (sector size 4): offset table
`[8, 12]`, one raw 4-byte sector, total length 12. -/
def dataC7ok : List Nat := [8, 0, 0, 0, 12, 0, 0, 0, 1, 2, 3, 4]

/-- The same buffer with a trailing junk byte: the final offset 12 no
longer equals the stored length 13. -/
def dataC7bad : List Nat := [8, 0, 0, 0, 12, 0, 0, 0, 1, 2, 3, 4, 9]

/-- Block entry for the 4-byte file stored in `dataC7ok`/`dataC7bad`. -/
def blkC7 : BlockEntry := ⟨0, 13, 4, fileExists ||| fileCompress, 0⟩

/-! ## Theorems -/

set_option maxRecDepth 40000

/-- The `seedIter` forcing `match` is the plain recurrence. -/
theorem seedIter_succ (s n : Nat) : seedIter s (n + 1) = seedIter (seedStep s) n := by
  cases h : seedStep s with
  | zero => simp only [seedIter, h]
  | succ t => simp only [seedIter, h]

/-- XOR with the same mask twice is the identity. -/
theorem xor_xor_cancel (a m : Nat) : (a ^^^ m) ^^^ m = a := by
  rw [Nat.xor_assoc, Nat.xor_self, Nat.xor_zero]

/-- The cipher loops are exact inverses for every starting key and seed:
each round masks with the same `key + seed` stream on both sides, and the
recovered plaintext drives the identical seed update. -/
theorem decryptLoop_encryptLoop (data : List Nat) :
    ∀ key seed, decryptLoop (encryptLoop data key seed) key seed = data := by
  induction data with
  | nil => intro key seed; rfl
  | cons p rest ih =>
      intro key seed
      simp only [encryptLoop, decryptLoop, xor_xor_cancel, List.cons.injEq, true_and]
      exact ih _ _

/-- C2: for every array of `u32` words `B` and every key `K`,
`decryptBlock(encryptBlock(B, K), K) = B` — the block cipher's encryption
and decryption are exact inverses.  (The statement is proved for all
natural-number words and keys; the `uint32` case is the restriction to
values below `2^32`.) -/
theorem decryptBlock_encryptBlock (B : List Nat) (K : Nat) :
    decryptBlock (encryptBlock B K) K = B :=
  decryptLoop_encryptLoop B K 0xEEEEEEEE

set_option maxRecDepth 40000 in
/-- C3: the string hash matches the ground-truth fixtures over the
1280-entry crypt table built from seed `0x00100001`:
`hashString("(hash table)", 3) = 0xC3AF3770`,
`hashString("(block table)", 3) = 0xEC83B3A3`, and the two name hashes of
`ReplaceableTextures\CommandButtons\BTNHaboss79.blp`. -/
theorem hashString_fixtures :
    hashString "(hash table)" 3 = 0xC3AF3770 ∧
    hashString "(block table)" 3 = 0xEC83B3A3 ∧
    hashString "ReplaceableTextures\\CommandButtons\\BTNHaboss79.blp" 1 = 0x8BD6929A ∧
    hashString "ReplaceableTextures\\CommandButtons\\BTNHaboss79.blp" 2 = 0xFD55129B := by
  decide

/-- Bit `i` of `orShifts m t` is set iff some bit `i + j` with `j < t`
of `m` is set. -/
theorem testBit_orShifts (m : Nat) :
    ∀ t i, (orShifts m t).testBit i = true ↔ ∃ j, j < t ∧ m.testBit (i + j) = true := by
  intro t
  induction t with
  | zero =>
      intro i
      simp [orShifts, Nat.zero_testBit]
  | succ t ih =>
      intro i
      simp only [orShifts, Nat.testBit_or, Bool.or_eq_true, ih, Nat.testBit_shiftRight]
      constructor
      · rintro (⟨j, hj, hb⟩ | hb)
        · exact ⟨j, by omega, hb⟩
        · refine ⟨t, by omega, ?_⟩
          rw [Nat.add_comm]
          exact hb
      · rintro ⟨j, hj, hb⟩
        rcases Nat.lt_succ_iff_lt_or_eq.mp hj with h | h
        · exact Or.inl ⟨j, h, hb⟩
        · subst h
          right
          rw [Nat.add_comm]
          exact hb

/-- The doubling step of the bit-smearing cascade. -/
theorem orShifts_double (m t : Nat) :
    orShifts m t ||| (orShifts m t >>> t) = orShifts m (2 * t) := by
  apply Nat.eq_of_testBit_eq
  intro i
  rw [Bool.eq_iff_iff]
  simp only [Nat.testBit_or, Bool.or_eq_true, Nat.testBit_shiftRight,
    testBit_orShifts]
  constructor
  · rintro (⟨j, hj, hb⟩ | ⟨j, hj, hb⟩)
    · exact ⟨j, by omega, hb⟩
    · refine ⟨t + j, by omega, ?_⟩
      have he : i + (t + j) = t + i + j := by omega
      rw [he]
      exact hb
  · rintro ⟨j, hj, hb⟩
    by_cases h : j < t
    · exact Or.inl ⟨j, h, hb⟩
    · refine Or.inr ⟨j - t, by omega, ?_⟩
      have he : t + i + (j - t) = i + j := by omega
      rw [he]
      exact hb

/-- For `m < 2^32`, OR-ing all 32 right shifts fills exactly the bits
below the most significant set bit. -/
theorem orShifts_32 (m : Nat) (hm : m < 2 ^ 32) :
    orShifts m 32 = 2 ^ Nat.size m - 1 := by
  apply Nat.eq_of_testBit_eq
  intro i
  rw [Bool.eq_iff_iff, Nat.testBit_two_pow_sub_one, testBit_orShifts,
    decide_eq_true_eq]
  constructor
  · rintro ⟨j, hj, hb⟩
    have h1 : 2 ^ (i + j) ≤ m := Nat.testBit_implies_ge hb
    have h2 : i + j < Nat.size m := Nat.lt_size.mpr h1
    omega
  · intro hi
    have hm0 : 0 < m := by
      rcases Nat.eq_zero_or_pos m with h0 | h0
      · subst h0
        simp [Nat.size_zero] at hi
      · exact h0
    have hs1 : Nat.size m ≤ 32 := Nat.size_le.mpr hm
    have htop : m.testBit (Nat.size m - 1) = true := by
      have hszpos : 0 < Nat.size m := Nat.size_pos.mpr hm0
      have hle : 2 ^ (Nat.size m - 1) ≤ m := Nat.lt_size.mp (by omega)
      have hlt : m < 2 ^ Nat.size m := Nat.lt_size_self m
      rw [Nat.testBit_to_div_mod]
      have hp : 0 < 2 ^ (Nat.size m - 1) := Nat.two_pow_pos _
      have hdiv1 : 1 ≤ m / 2 ^ (Nat.size m - 1) :=
        (Nat.le_div_iff_mul_le hp).mpr (by omega)
      have hdiv2 : m / 2 ^ (Nat.size m - 1) < 2 := by
        apply (Nat.div_lt_iff_lt_mul hp).mpr
        have he : 2 ^ (Nat.size m - 1) * 2 = 2 ^ Nat.size m := by
          rw [← Nat.pow_succ]
          congr 1
          omega
        omega
      have hone : m / 2 ^ (Nat.size m - 1) = 1 := by omega
      rw [hone]
      decide
    refine ⟨Nat.size m - 1 - i, by omega, ?_⟩
    have he : i + (Nat.size m - 1 - i) = Nat.size m - 1 := by omega
    rw [he]
    exact htop

/-- Correctness of `nextPowerOf2`: it computes `2 ^ size (n-1)` for `1 ≤ n ≤ 2^31` — the
smallest power of two that is at least `n`. -/
theorem nextPowerOf2_eq (n : Nat) (h1 : 1 ≤ n) (h2 : n ≤ 2 ^ 31) :
    nextPowerOf2 n = 2 ^ Nat.size (n - 1) := by
  have hm32 : (2 : Nat) ^ 31 < M32 := by norm_num [M32]
  have hmod : (n - 1) % M32 = n - 1 := Nat.mod_eq_of_lt (by omega)
  have e1 : orShifts (n - 1) 1 = n - 1 := by
    simp [orShifts, Nat.shiftRight_zero, Nat.zero_or]
  have e2 : (n - 1) ||| (n - 1) >>> 1 = orShifts (n - 1) 2 := by
    have h := orShifts_double (n - 1) 1
    rw [e1] at h
    simpa using h
  have e4 : orShifts (n - 1) 2 ||| orShifts (n - 1) 2 >>> 2 = orShifts (n - 1) 4 := by
    simpa using orShifts_double (n - 1) 2
  have e8 : orShifts (n - 1) 4 ||| orShifts (n - 1) 4 >>> 4 = orShifts (n - 1) 8 := by
    simpa using orShifts_double (n - 1) 4
  have e16 : orShifts (n - 1) 8 ||| orShifts (n - 1) 8 >>> 8 = orShifts (n - 1) 16 := by
    simpa using orShifts_double (n - 1) 8
  have e32 : orShifts (n - 1) 16 ||| orShifts (n - 1) 16 >>> 16 = orShifts (n - 1) 32 := by
    simpa using orShifts_double (n - 1) 16
  have hsz : Nat.size (n - 1) ≤ 31 := Nat.size_le.mpr (by omega)
  have hle : (2 : Nat) ^ Nat.size (n - 1) ≤ 2 ^ 31 :=
    Nat.pow_le_pow_right (by norm_num) hsz
  unfold nextPowerOf2
  rw [if_neg (by omega)]
  simp only [hmod, e2, e4, e8, e16, e32, orShifts_32 (n - 1) (by omega)]
  have hp : 0 < (2 : Nat) ^ Nat.size (n - 1) := Nat.two_pow_pos _
  rw [Nat.sub_add_cancel hp]
  exact Nat.mod_eq_of_lt (by omega)

/-- C6 (amended): for every `maxFiles ≤ 2^30`, the hash-table size chosen
by `Create`/`CreateWithVersion` is the smallest power of two that is at
least `floor(maxFiles × 1.5)` (the Go `uint32(float64(maxFiles) * 1.5)`
conversion truncates) and at least 16. -/
theorem hashTableSize_spec (maxFiles : Nat) (h : maxFiles ≤ 2 ^ 30) :
    (∃ k, hashTableSizeFor maxFiles = 2 ^ k) ∧
    3 * maxFiles / 2 ≤ hashTableSizeFor maxFiles ∧
    16 ≤ hashTableSizeFor maxFiles ∧
    (∀ j, 3 * maxFiles / 2 ≤ 2 ^ j → 16 ≤ 2 ^ j →
      hashTableSizeFor maxFiles ≤ 2 ^ j) := by
  by_cases h0 : 3 * maxFiles / 2 = 0
  · have hr : hashTableSizeFor maxFiles = 16 := by
      simp only [hashTableSizeFor, h0]
      rfl
    rw [hr, h0]
    exact ⟨⟨4, by norm_num⟩, by omega, by omega, fun j _ h16 => h16⟩
  · have h1 : 1 ≤ 3 * maxFiles / 2 := by omega
    have h2 : 3 * maxFiles / 2 ≤ 2 ^ 31 := by
      have hd : 3 * maxFiles ≤ 3 * 2 ^ 30 := by omega
      have : 3 * maxFiles / 2 ≤ 3 * 2 ^ 30 / 2 := Nat.div_le_div_right hd
      norm_num at this ⊢
      omega
    have hpow := nextPowerOf2_eq (3 * maxFiles / 2) h1 h2
    have hge : 3 * maxFiles / 2 ≤ 2 ^ Nat.size (3 * maxFiles / 2 - 1) := by
      have := Nat.lt_size_self (3 * maxFiles / 2 - 1)
      omega
    have hmin : ∀ j, 3 * maxFiles / 2 ≤ 2 ^ j →
        2 ^ Nat.size (3 * maxFiles / 2 - 1) ≤ 2 ^ j := by
      intro j hj
      exact Nat.pow_le_pow_right (by norm_num) (Nat.size_le.mpr (by omega))
    simp only [hashTableSizeFor, hpow]
    by_cases hc : 2 ^ Nat.size (3 * maxFiles / 2 - 1) < 16
    · rw [if_pos hc]
      exact ⟨⟨4, rfl⟩, by omega, Nat.le_refl 16, fun j _ h16 => h16⟩
    · rw [if_neg hc]
      exact ⟨⟨_, rfl⟩, hge, by omega, fun j hj _ => hmin j hj⟩

/-- Witness for C6: the amended statement applied at `maxFiles = 10`
(the archive-creation size used throughout the repository's tests):
the chosen size is a power of two, at least `floor(10 × 1.5) = 15`, at
least 16, and minimal (it does not exceed the power of two `2^4 = 16`,
which satisfies both lower bounds). -/
theorem hashTableSize_spec_witness :
    (10 : Nat) ≤ 2 ^ 30 ∧
    3 * 10 / 2 ≤ hashTableSizeFor 10 ∧
    16 ≤ hashTableSizeFor 10 ∧
    hashTableSizeFor 10 ≤ 2 ^ 4 :=
  ⟨by norm_num,
   (hashTableSize_spec 10 (by norm_num)).2.1,
   (hashTableSize_spec 10 (by norm_num)).2.2.1,
   (hashTableSize_spec 10 (by norm_num)).2.2.2 4 (by decide) (by decide)⟩

/-- Counterexample for C6 as stated: at `maxFiles = 11` the claim
demands the smallest power of two at least `ceil(11 × 1.5) = 17`, namely
32, but the code truncates `16.5` to 16 and chooses `nextPowerOf2 16 =
16`, which is smaller than 17. -/
theorem hashTableSize_ceil_counterexample :
    hashTableSizeFor 11 = 16 ∧ (3 * 11 + 1) / 2 = 17 ∧
    ¬ ((3 * 11 + 1) / 2 ≤ hashTableSizeFor 11) := by
  decide

/-- Entry `t` of the sector offset table read from a stored buffer. -/
theorem readOffsetTable_getD (data : List Nat) (count t : Nat) (h : t < count) :
    (readOffsetTable data count).getD t 0 = le32At data (t * 4) := by
  unfold readOffsetTable
  rw [List.getD_eq_getElem?_getD, List.getElem?_map, List.getElem?_range h]
  rfl

/-- If the per-sector loop of `decompressSectors` succeeds, every sector
it visited passed the offset checks: adjacent offsets are non-decreasing
and bounded by the stored length. -/
theorem sectorLoop_ok_bounds (B : Backends) (data offs : List Nat)
    (ss fs ns : Nat) :
    ∀ rem i out, sectorLoop B data offs ss fs ns i rem = .ok out →
      ∀ t, i ≤ t → t < i + rem →
        offs.getD t 0 ≤ offs.getD (t + 1) 0 ∧ offs.getD (t + 1) 0 ≤ data.length := by
  intro rem
  induction rem with
  | zero =>
      intro i out _ t ht1 ht2
      omega
  | succ rem ih =>
      intro i out h t ht1 ht2
      simp only [sectorLoop] at h
      split at h
      · simp at h
      · rename_i hc
        split at h
        · simp at h
        · rename_i out1 hstep
          split at h
          · simp at h
          · rename_i rest hrec
            rcases Nat.eq_or_lt_of_le ht1 with heq | hlt
            · subst heq
              push_neg at hc
              exact ⟨by omega, by omega⟩
            · exact ih (i + 1) rest hrec t (by omega) (by omega)

/-- C7 (amended): when reading an unencrypted sectored file, a
successful `decompressSectors` implies the offset table fits in the
stored buffer and its offsets are monotonically non-decreasing and
bounded by the total stored length.  (The read does **not** require the
final offset to equal the stored length — see the counterexample.) -/
theorem decompressSectors_offset_checks (B : Backends) (data : List Nat)
    (block : BlockEntry) (ss : Nat) (out : List Nat)
    (h : decompressSectors B data block ss = .ok out) :
    ((block.FileSize + ss - 1) / ss + 1) * 4 ≤ data.length ∧
    ∀ t, t < (block.FileSize + ss - 1) / ss →
      le32At data (t * 4) ≤ le32At data ((t + 1) * 4) ∧
      le32At data ((t + 1) * 4) ≤ data.length := by
  simp only [decompressSectors] at h
  split at h
  · simp at h
  · rename_i hlen
    refine ⟨by omega, ?_⟩
    intro t ht
    have hb := sectorLoop_ok_bounds B data
      (readOffsetTable data ((block.FileSize + ss - 1) / ss + 1)) ss
      block.FileSize ((block.FileSize + ss - 1) / ss)
      ((block.FileSize + ss - 1) / ss) 0 out h t (by omega) (by omega)
    rwa [readOffsetTable_getD data _ t (by omega),
      readOffsetTable_getD data _ (t + 1) (by omega)] at hb

/-- Witness for C7: a conforming 1-sector buffer is read successfully,
and the theorem yields its offset-table bounds (instantiated at the
single sector). -/
theorem decompressSectors_checks_witness :
    decompressSectors Bid dataC7ok blkC7 4 = .ok [1, 2, 3, 4] ∧
    le32At dataC7ok 0 ≤ le32At dataC7ok 4 ∧
    le32At dataC7ok 4 ≤ dataC7ok.length :=
  ⟨by decide, by
    have h := (decompressSectors_offset_checks Bid dataC7ok blkC7 4
      [1, 2, 3, 4] (by decide)).2 0 (by decide)
    simpa using h⟩

/-- Counterexample for C7 as stated: the stored buffer `dataC7bad`
violates "the last offset must equal the stored length" (its final
offset is 12 while 13 bytes are stored), yet the read succeeds instead
of failing. -/
theorem decompressSectors_lastOffset_counterexample :
    decompressSectors Bid dataC7bad blkC7 4 = .ok [1, 2, 3, 4] ∧
    le32At dataC7bad 4 = 12 ∧ dataC7bad.length = 13 := by
  decide

/-- Any block entry returned by the probe loop was read from a valid
block-table index after the explicit `BlockIndex < len(blockTable)`
guard, and has its EXISTS bit set. -/
theorem findFileLoop_sound (ht : List HashEntry) (bt : List BlockEntry)
    (size hA hB start : Nat) :
    ∀ rem i b, findFileLoop ht bt size hA hB start i rem = some b →
      ∃ idx, idx < bt.length ∧ bt[idx]? = some b ∧ b.Flags &&& fileExists ≠ 0 := by
  intro rem
  induction rem with
  | zero =>
      intro i b h
      simp [findFileLoop] at h
  | succ rem ih =>
      intro i b h
      simp only [findFileLoop] at h
      split at h
      · simp at h
      · split at h
        · exact ih _ _ h
        · split at h
          · split at h
            · rename_i hidx
              split at h
              · rename_i hfl
                rw [Option.some_inj] at h
                subst h
                refine ⟨_, hidx, ?_, hfl⟩
                rw [List.getElem?_eq_getElem hidx]
                congr 1
                rw [List.getD_eq_getElem?_getD bt, List.getElem?_eq_getElem hidx]
                rfl
              · exact ih _ _ h
            · exact ih _ _ h
          · exact ih _ _ h

/-- If every hash-table entry is an EMPTY/DELETED sentinel or references
a block index past the end of the block table, the probe loop finds
nothing. -/
theorem findFileLoop_none (ht : List HashEntry) (bt : List BlockEntry)
    (size hA hB start : Nat)
    (hall : ∀ e ∈ ht, e.BlockIndex = hashTableEmpty ∨
      e.BlockIndex = hashTableDeleted ∨ bt.length ≤ e.BlockIndex) :
    ∀ rem i, findFileLoop ht bt size hA hB start i rem = none := by
  have he : ∀ idx, (ht.getD idx ⟨0, 0, 0, 0, hashTableEmpty⟩).BlockIndex = hashTableEmpty ∨
      (ht.getD idx ⟨0, 0, 0, 0, hashTableEmpty⟩).BlockIndex = hashTableDeleted ∨
      bt.length ≤ (ht.getD idx ⟨0, 0, 0, 0, hashTableEmpty⟩).BlockIndex := by
    intro idx
    by_cases hlt : idx < ht.length
    · refine hall _ ?_
      rw [List.getD_eq_getElem?_getD, List.getElem?_eq_getElem hlt]
      exact List.getElem_mem hlt
    · rw [List.getD_eq_default _ _ (by omega)]
      exact Or.inl rfl
  intro rem
  induction rem with
  | zero => intro i; rfl
  | succ rem ih =>
      intro i
      simp only [findFileLoop]
      by_cases h1 : (ht.getD ((start + i) % size) ⟨0, 0, 0, 0, hashTableEmpty⟩).BlockIndex
          = hashTableEmpty
      · rw [if_pos h1]
      · rw [if_neg h1]
        by_cases h2 : (ht.getD ((start + i) % size) ⟨0, 0, 0, 0, hashTableEmpty⟩).BlockIndex
            = hashTableDeleted
        · rw [if_pos h2]
          exact ih _
        · rw [if_neg h2]
          have h3 : bt.length ≤
              (ht.getD ((start + i) % size) ⟨0, 0, 0, 0, hashTableEmpty⟩).BlockIndex := by
            rcases he ((start + i) % size) with ha | ha | ha
            · exact absurd ha h1
            · exact absurd ha h2
            · exact ha
          by_cases h4 : (ht.getD ((start + i) % size) ⟨0, 0, 0, 0, hashTableEmpty⟩).HashA = hA ∧
              (ht.getD ((start + i) % size) ⟨0, 0, 0, 0, hashTableEmpty⟩).HashB = hB
          · rw [if_pos h4, if_neg (by omega)]
            exact ih _
          · rw [if_neg h4]
            exact ih _

/-- C9: the hash-table lookup never indexes the block table out of
range.  Every block entry `findFile` returns comes from a valid index of
the block table (after the explicit bounds guard) with its EXISTS bit
set; and on an archive whose matching entries all have out-of-range
block indices (or are sentinels), the lookup reports not-found instead
of reading past the end. -/
theorem findFile_no_oob (a : Archive) (path : String) :
    (∀ b, findFile a path = some b →
      ∃ idx, idx < a.blockTable.length ∧ a.blockTable[idx]? = some b ∧
        b.Flags &&& fileExists ≠ 0) ∧
    ((∀ e ∈ a.hashTable, e.BlockIndex = hashTableEmpty ∨
        e.BlockIndex = hashTableDeleted ∨ a.blockTable.length ≤ e.BlockIndex) →
      findFile a path = none) := by
  constructor
  · intro b h
    exact findFileLoop_sound _ _ _ _ _ _ _ _ b h
  · intro hall
    exact findFileLoop_none _ _ _ _ _ _ hall _ _

/-- Witness for C9: on a concrete one-slot archive the lookup returns
the live block at index 0; on the same archive with its hash entry
pointing at block index 5 (past the one-entry block table) the lookup
returns not-found. -/
theorem findFile_no_oob_witness :
    findFile c9Arc "A" = some c9Block ∧
    (∃ idx, idx < c9Arc.blockTable.length ∧ c9Arc.blockTable[idx]? = some c9Block ∧
      c9Block.Flags &&& fileExists ≠ 0) ∧
    findFile c9Bad "A" = none :=
  ⟨by decide, (findFile_no_oob c9Arc "A").1 c9Block (by decide),
   (findFile_no_oob c9Bad "A").2 (by decide)⟩

/-- C10: `IsDeleteMarker` and `IsPatchFile` return `false` whenever the
archive handle is not in read mode — in particular on archives opened
with `Create` (mode `"w"`) or `OpenForModify` (mode `"m"`), for every
path, regardless of the loaded block table. -/
theorem isDeleteMarker_isPatchFile_require_read (a : Archive) (p : String)
    (h : a.mode = "w" ∨ a.mode = "m") :
    a.IsDeleteMarker p = false ∧ a.IsPatchFile p = false := by
  have hne : a.mode ≠ "r" := by
    rcases h with h | h <;> rw [h] <;> decide
  constructor
  · unfold Archive.IsDeleteMarker
    rw [if_pos hne]
  · unfold Archive.IsPatchFile
    rw [if_pos hne]

/-- Witness for C10: a modify-mode archive whose block table does hold a
matching entry flagged `DELETE_MARKER | PATCH_FILE | EXISTS` (as the
lookup itself confirms), yet both predicates answer `false`. -/
theorem c10_mode_witness :
    (c10Arc.mode = "w" ∨ c10Arc.mode = "m") ∧
    findFile c10Arc "X" =
      some ⟨0, 0, 0, fileDeleteMarker ||| filePatchFile ||| fileExists, 0⟩ ∧
    c10Arc.IsDeleteMarker "X" = false ∧ c10Arc.IsPatchFile "X" = false :=
  ⟨Or.inr (by decide), by decide,
   (isDeleteMarker_isPatchFile_require_read c10Arc "X" (Or.inr (by decide))).1,
   (isDeleteMarker_isPatchFile_require_read c10Arc "X" (Or.inr (by decide))).2⟩

/-- C8 (amended): an archive created with no files and closed re-opens
successfully, and `HasFile` is `false` for every path; but `ListFiles`
does not return an empty listing — it fails with an `extract listfile`
error, because an empty archive contains no `(listfile)`. -/
theorem emptyArchive_reopen :
    openArchive emptyBytes = .ok emptyArc ∧
    (∀ path, emptyArc.HasFile path = false) ∧
    ListFiles Bid emptyArc = .error "extract listfile: file not found: (listfile)" := by
  refine ⟨by decide, ?_, by decide⟩
  intro path
  have hmode : emptyArc.mode = "r" := by decide
  have hempty : ∀ e ∈ emptyArc.hashTable, e.BlockIndex = hashTableEmpty := by decide
  have hall : ∀ e ∈ emptyArc.hashTable, e.BlockIndex = hashTableEmpty ∨
      e.BlockIndex = hashTableDeleted ∨ emptyArc.blockTable.length ≤ e.BlockIndex :=
    fun e he => Or.inl (hempty e he)
  have hnone : findFile emptyArc path = none := by
    simp only [findFile]
    exact findFileLoop_none _ _ _ _ _ _ hall _ _
  unfold Archive.HasFile
  rw [if_neg (by rw [hmode]; decide)]
  simp only [hnone]

/-- Counterexample for C8 as stated: listing the re-opened empty
archive's contents does not yield an empty list of names — it returns an
error. -/
theorem emptyArchive_listFiles_counterexample :
    ListFiles Bid emptyArc = .error "extract listfile: file not found: (listfile)" ∧
    ListFiles Bid emptyArc ≠ .ok [] := by
  decide

/-- C1 (code-bug evidence): a 50-byte compressible payload added via
`AddFileWithCRC`, written, closed and re-opened, is stored single-unit
with `EXISTS | SINGLE_UNIT | COMPRESS | SECTOR_CRC`, but `ExtractFile`
fails with a sector-CRC mismatch instead of returning the payload: the
writer computed the trailing Adler-32 over the *stored* (compressed)
bytes, while the reader validates it against the *decompressed* bytes.
The backends are exact inverses here (second conjunct), so the loss is
not an artifact of the compression model. -/
theorem singleUnit_crc_roundtrip_bug :
    (compressData B0 demoData).length < demoData.length ∧
    B0.zlibD (B0.zlibC demoData) demoData.length = .ok demoData ∧
    writeArchive B0 demoW = .ok demoBytes ∧
    openArchive demoBytes = .ok demoArc ∧
    (demoArc.blockTable.getD 0 default).Flags =
      fileExists ||| fileSingleUnit ||| fileCompress ||| fileSectorCRC ∧
    adler32 (compressData B0 demoData) ≠ adler32 demoData ∧
    Archive.ExtractFile B0 demoArc "Data\\T.txt" =
      .error (crcMismatchMsg (adler32 (compressData B0 demoData)) (adler32 demoData)) := by
  decide

/-- Lookup distributes over appending to the name → index map. -/
theorem alookup_append (m l : List (String × Nat)) (k : String) :
    alookup (m ++ l) k = (alookup m k).or (alookup l k) := by
  simp only [alookup, List.find?_append]
  cases List.find? (fun p => p.1 == k) m <;> simp [Option.or]

/-- A singleton binding for a different key resolves nothing. -/
theorem alookup_single_ne (q : String) (i : Nat) (k : String) (h : q ≠ k) :
    alookup [(q, i)] k = none := by
  have hb : (q == k) = false := beq_eq_false_iff_ne.mpr h
  simp [alookup, List.find?, hb]

/-- Sub-lemma: `insertFiles` never disturbs an existing binding (insert-on-first-
sight only appends, and lookup returns the first match). -/
theorem insertFiles_preserves_some (files : List String) (i : Nat)
    (m : List (String × Nat)) (k : String) (v : Nat) (h : alookup m k = some v) :
    alookup (insertFiles files i m) k = some v := by
  induction files generalizing m with
  | nil => exact h
  | cons f rest ih =>
      show alookup (insertFiles rest i _) k = some v
      cases hl : alookup m (normalizeMpqPath f) with
      | some w =>
          simp only [insertFiles, List.foldl_cons, hl]
          exact ih m h
      | none =>
          simp only [insertFiles, List.foldl_cons, hl]
          refine ih _ ?_
          rw [alookup_append, h]
          rfl

/-- Sub-lemma: `insertFiles` of files that never normalize to `k` leaves the
binding of `k` unchanged. -/
theorem insertFiles_not_mentioned (files : List String) (i : Nat) (k : String) :
    ∀ m, (∀ f ∈ files, normalizeMpqPath f ≠ k) →
      alookup (insertFiles files i m) k = alookup m k := by
  induction files with
  | nil => intro m _; rfl
  | cons f rest ih =>
      intro m h
      cases hl : alookup m (normalizeMpqPath f) with
      | some w =>
          simp only [insertFiles, List.foldl_cons, hl]
          exact ih m (fun g hg => h g (List.mem_cons_of_mem f hg))
      | none =>
          simp only [insertFiles, List.foldl_cons, hl]
          have h2 := ih (m ++ [(normalizeMpqPath f, i)])
            (fun g hg => h g (List.mem_cons_of_mem f hg))
          simp only [insertFiles] at h2
          rw [h2, alookup_append, alookup_single_ne _ _ _ (h f (List.mem_cons_self f rest))]
          cases alookup m k <;> rfl

/-- If `k` is unbound and one of the files normalizes to `k`, the
insert-on-first-sight pass binds `k` to archive index `i`. -/
theorem insertFiles_hit (files : List String) (i : Nat)
    (m : List (String × Nat)) (k : String)
    (hnone : alookup m k = none) (hmem : ∃ f ∈ files, normalizeMpqPath f = k) :
    alookup (insertFiles files i m) k = some i := by
  induction files generalizing m with
  | nil =>
      rcases hmem with ⟨f, hf, _⟩
      cases hf
  | cons f rest ih =>
      by_cases hf : normalizeMpqPath f = k
      · cases hl : alookup m (normalizeMpqPath f) with
        | some w =>
            rw [hf, hnone] at hl
            cases hl
        | none =>
            simp only [insertFiles, List.foldl_cons, hl]
            refine insertFiles_preserves_some rest i _ k i ?_
            rw [alookup_append, hnone, hf]
            simp [alookup]
      · rcases hmem with ⟨g, hg, hgk⟩
        have hgrest : g ∈ rest := by
          rcases List.mem_cons.mp hg with rfl | hg'
          · exact absurd hgk hf
          · exact hg'
        cases hl : alookup m (normalizeMpqPath f) with
        | some w =>
            simp only [insertFiles, List.foldl_cons, hl]
            exact ih m hnone ⟨g, hgrest, hgk⟩
        | none =>
            simp only [insertFiles, List.foldl_cons, hl]
            refine ih _ ?_ ⟨g, hgrest, hgk⟩
            rw [alookup_append, hnone, alookup_single_ne _ _ _ hf]
            rfl

/-- The outer cache-rebuild loop never disturbs an existing binding. -/
theorem rebuildLoop_preserves_some (B : Backends) (archives : List Archive)
    (k : String) (v : Nat) :
    ∀ c m, alookup m k = some v → alookup (rebuildLoop B archives c m) k = some v := by
  intro c
  induction c with
  | zero => intro m h; exact h
  | succ c ih =>
      intro m h
      cases hL : ListFiles B (archives.getD c default) with
      | error e =>
          simp only [rebuildLoop, hL]
          exact ih m h
      | ok files =>
          simp only [rebuildLoop, hL]
          exact ih _ (insertFiles_preserves_some files c m k v h)

/-- Core cache property: iterating archives from highest priority down,
the first (highest) archive listing the name claims the binding. -/
theorem rebuildLoop_resolves (B : Backends) (archives : List Archive)
    (k : String) (j : Nat) (lj : List String)
    (hlist : ListFiles B (archives.getD j default) = .ok lj)
    (hmem : ∃ f ∈ lj, normalizeMpqPath f = k)
    (hhigher : ∀ t, j < t → ∀ l, ListFiles B (archives.getD t default) = .ok l →
      ∀ f ∈ l, normalizeMpqPath f ≠ k) :
    ∀ c m, j < c → alookup m k = none →
      alookup (rebuildLoop B archives c m) k = some j := by
  intro c
  induction c with
  | zero => intro m h; omega
  | succ c ih =>
      intro m hjc hmnone
      rcases Nat.lt_succ_iff_lt_or_eq.mp hjc with hlt | heq
      · cases hL : ListFiles B (archives.getD c default) with
        | error e =>
            simp only [rebuildLoop, hL]
            exact ih m hlt hmnone
        | ok files =>
            simp only [rebuildLoop, hL]
            refine ih _ hlt ?_
            rw [insertFiles_not_mentioned files c k m (hhigher c hlt files hL)]
            exact hmnone
      · subst heq
        simp only [rebuildLoop, hlist]
        exact rebuildLoop_preserves_some B archives k j j _
          (insertFiles_hit lj j m k hmnone hmem)

/-- C4: in a patch chain the last archive wins.  If archive `j` lists
`name` and no higher-priority archive lists it, and `j`'s block lookup
finds a live non-deleted entry, then the chain's `HasFile` answers true
and the chain's `ExtractFile` delegates to exactly archive `j`'s
`ExtractFile` — so a file present in both a base and a patch archive
extracts to the patch archive's content. -/
theorem patchChain_lastWins (B : Backends) (archives : List Archive)
    (name : String) (j : Nat) (lj : List String) (b : BlockEntry)
    (hj : j < archives.length)
    (hlist : ListFiles B (archives.getD j default) = .ok lj)
    (hmem : ∃ f ∈ lj, normalizeMpqPath f = normalizeMpqPath name)
    (hhigher : ∀ t, j < t → ∀ l, ListFiles B (archives.getD t default) = .ok l →
      ∀ f ∈ l, normalizeMpqPath f ≠ normalizeMpqPath name)
    (hfind : findFile (archives.getD j default) (replaceSlash name) = some b)
    (hdel : b.Flags &&& fileDeleteMarker = 0) :
    PatchChain.HasFile B (OpenPatchChain B archives) name = true ∧
    PatchChain.ExtractFile B (OpenPatchChain B archives) name =
      Archive.ExtractFile B (archives.getD j default) (replaceSlash name) := by
  have hres : alookup (rebuildFileMap B archives) (normalizeMpqPath name) = some j :=
    rebuildLoop_resolves B archives (normalizeMpqPath name) j lj hlist hmem hhigher
      archives.length [] hj rfl
  constructor
  · simp only [PatchChain.HasFile, OpenPatchChain, if_pos, hres, hfind, hdel]
    rfl
  · simp only [PatchChain.ExtractFile, OpenPatchChain, if_pos, hres, hfind]
    rw [if_neg (by omega)]

/-- Witness for C4: a two-archive chain where both the base and the
patch archive store `Data\File.txt`; the chain reports the file and
extracts the patch archive's bytes `"Patch"`. -/
theorem patchChain_lastWins_witness :
    PatchChain.HasFile Bid (OpenPatchChain Bid [baseLite, patchLite]) "Data\\File.txt" = true ∧
    PatchChain.ExtractFile Bid (OpenPatchChain Bid [baseLite, patchLite]) "Data\\File.txt" =
      .ok (strBytes "Patch") := by
  have h := patchChain_lastWins Bid [baseLite, patchLite] "Data\\File.txt" 1
    ["Data\\File.txt"] patchBlockLite (by decide) (by decide) (by decide)
    (fun t ht l hl f hf => by
      have hd : List.getD [baseLite, patchLite] t default = default := by
        rw [List.getD_eq_default]
        simpa using ht
      rw [hd] at hl
      have he : ListFiles Bid default = .error "archive not opened for reading" := by decide
      rw [he] at hl
      cases hl)
    (by decide) (by decide)
  exact ⟨h.1, h.2.trans (by decide)⟩

/-- C5: a delete marker in a higher-priority archive shadows a normally
stored lower-priority version: the chain's `HasFile` answers false and
the chain's `ExtractFile` fails with the
`"file marked for deletion in patch"` error instead of extracting the
lower-priority version. -/
theorem patchChain_deleteMarker (B : Backends) (archives : List Archive)
    (name : String) (j : Nat) (lj : List String) (b : BlockEntry)
    (hj : j < archives.length)
    (hlist : ListFiles B (archives.getD j default) = .ok lj)
    (hmem : ∃ f ∈ lj, normalizeMpqPath f = normalizeMpqPath name)
    (hhigher : ∀ t, j < t → ∀ l, ListFiles B (archives.getD t default) = .ok l →
      ∀ f ∈ l, normalizeMpqPath f ≠ normalizeMpqPath name)
    (hfind : findFile (archives.getD j default) (replaceSlash name) = some b)
    (hdel : b.Flags &&& fileDeleteMarker ≠ 0) :
    PatchChain.HasFile B (OpenPatchChain B archives) name = false ∧
    PatchChain.ExtractFile B (OpenPatchChain B archives) name =
      .error ("file marked for deletion in patch: " ++ replaceSlash name) := by
  have hres : alookup (rebuildFileMap B archives) (normalizeMpqPath name) = some j :=
    rebuildLoop_resolves B archives (normalizeMpqPath name) j lj hlist hmem hhigher
      archives.length [] hj rfl
  constructor
  · simp only [PatchChain.HasFile, OpenPatchChain, if_pos, hres, hfind]
    simpa using hdel
  · simp only [PatchChain.ExtractFile, OpenPatchChain, if_pos, hres, hfind]
    rw [if_pos hdel]

/-- Witness for C5: a two-archive chain whose higher-priority member
carries a delete marker for `Data\File.txt` while the base stores it
normally; the chain hides the file and extraction reports the deletion
error. -/
theorem patchChain_deleteMarker_witness :
    PatchChain.HasFile Bid (OpenPatchChain Bid [baseLite, delLite]) "Data\\File.txt" = false ∧
    PatchChain.ExtractFile Bid (OpenPatchChain Bid [baseLite, delLite]) "Data\\File.txt" =
      .error ("file marked for deletion in patch: " ++ replaceSlash "Data\\File.txt") :=
  patchChain_deleteMarker Bid [baseLite, delLite] "Data\\File.txt" 1
    ["Data\\File.txt"] delBlockLite (by decide) (by decide) (by decide)
    (fun t ht l hl f hf => by
      have hd : List.getD [baseLite, delLite] t default = default := by
        rw [List.getD_eq_default]
        simpa using ht
      rw [hd] at hl
      have he : ListFiles Bid default = .error "archive not opened for reading" := by decide
      rw [he] at hl
      cases hl)
    (by decide) (by decide)

end MPQ








